import Mathlib

/-!
Verification of the data-pipeline-dashboard visualization core
(`DataChart.jsx`): the column classifier (`classifyColumn`,
`classifyColumns`) and the visualization rule engine
(`selectVisualizations`) with its six reshapers.

The JavaScript source is shallowly embedded: cell values are a tagged
union (finite numbers are modelled as rationals — the rows arrive from
a JSON API, which carries no NaN/Infinity), rows are insertion-ordered
association lists modelling JS objects, and computations that can throw
a TypeError (the histogram bin update on a NaN index) are Option-valued.
-/

set_option autoImplicit false

namespace Dashboard

/-- A cell value: a finite number, a string, or null.  JS `undefined`
(absent key) is identified with `null`; every predicate the source
applies to cells (`typeof v === 'number'`, `v != null`, truthiness,
`String(v)` inside `|| 'Unknown'` defaults) treats the two alike on the
paths exercised here. -/
inductive Value where
  | num (q : Rat)
  | str (s : String)
  | null
deriving DecidableEq, Repr

/-- A row / plain JS object: an insertion-ordered association list from
string keys to cell values. -/
abbrev Row := List (String × Value)

/-- `row[k]`: first binding of `k`, else `null` (JS `undefined`). -/
def objGet : Row → String → Value
  | [], _ => .null
  | p :: ps, k => if p.1 == k then p.2 else objGet ps k

/-- `k in row`: whether the object has the key. -/
def hasKey : Row → String → Bool
  | [], _ => false
  | p :: ps, k => p.1 == k || hasKey ps k

/-- JS property write/object-literal update: an existing key keeps its
position and gets the new value, a fresh key is appended (JS object
keys are unique, so replacing the first binding is the object update). -/
def objSet : Row → String → Value → Row
  | [], k, v => [(k, v)]
  | p :: ps, k, v => if p.1 == k then (k, v) :: ps else p :: objSet ps k v

/-- `typeof v === 'number' && !isNaN(v)` (our numbers are all finite). -/
def isNum : Value → Bool
  | .num _ => true
  | _ => false

/-- The numeric payload, for `filter`+read idioms in the source. -/
def numPart : Value → Option Rat
  | .num q => some q
  | _ => none

/-- `typeof v === 'string'`. -/
def isStr : Value → Bool
  | .str _ => true
  | _ => false

/-- JS truthiness of a cell (0, "" and null/undefined are falsy). -/
def truthy : Value → Bool
  | .num q => q != 0
  | .str s => s != ""
  | .null => false

/-- `v || dflt`. -/
def jsOr (v dflt : Value) : Value :=
  if truthy v then v else dflt

/-! ### Character classes and string searching (for the name/date tests) -/

/-- The regex class `\d`. -/
def isDigitCh (c : Char) : Bool := 48 ≤ c.toNat && c.toNat ≤ 57

/-- The regex class `[A-Z]`. -/
def isUpperCh (c : Char) : Bool := 65 ≤ c.toNat && c.toNat ≤ 90

/-- The regex class `[a-z]`. -/
def isLowerCh (c : Char) : Bool := 97 ≤ c.toNat && c.toNat ≤ 122

/-- A character of a rendered number other than a leading sign: a
decimal digit or the point. -/
def plainCh (c : Char) : Bool := isDigitCh c || c == '.'

/-- `s.toLowerCase()` (ASCII column names): lower-case every character. -/
def strToLower (s : String) : String := ⟨s.data.map Char.toLower⟩

/-- Does the second list start with the first? -/
def startsWithChars : List Char → List Char → Bool
  | [], _ => true
  | _ :: _, [] => false
  | p :: ps, c :: cs => p == c && startsWithChars ps cs

/-- `s.includes(pat)`. -/
def strIncludes (s pat : String) : Bool :=
  s.data.tails.any (fun t => startsWithChars pat.data t)

/-! ### JS number-to-string rendering

`classifyColumn` stringifies cell values (`String(v)`) before the
date-pattern test and the cardinality count.  We model ECMAScript
rendering of a finite number as: optional leading `'-'`, then decimal
digits, then an optional `'.'` followed by decimal digits (fraction
truncated at 20 digits).  The properties the proofs use — the rendering
contains no `'/'`, no uppercase letter, and a `'-'` only at position 0 —
hold of the real JS rendering of every finite number as well. -/

/-- The decimal digit character for `d ≤ 9`. -/
def digitCh (d : Nat) : Char := Char.ofNat (48 + d)

/-- Decimal digits of a natural number (fuel-indexed; `natDigits`
supplies enough fuel). -/
def natDigitsF : Nat → Nat → List Char
  | 0, _ => []
  | fuel + 1, n => if n < 10 then [digitCh n] else natDigitsF fuel (n / 10) ++ [digitCh (n % 10)]

/-- Decimal digits of a natural number, most significant first. -/
def natDigits (n : Nat) : List Char := natDigitsF (n + 1) n

/-- Decimal digits of the fractional part `0 ≤ q < 1`, at most `fuel`
of them. -/
def fracDigits : Nat → Rat → List Char
  | 0, _ => []
  | fuel + 1, q =>
    if q ≤ 0 then []
    else digitCh (q * 10).floor.toNat :: fracDigits fuel (q * 10 - (q * 10).floor)

/-- Rendering of a nonnegative rational: integer digits, then an
optional point and fraction digits. -/
def ratToJsPos (q : Rat) : String :=
  if q - q.floor = 0 then ⟨natDigits q.floor.toNat⟩
  else ⟨natDigits q.floor.toNat ++ '.' :: fracDigits 20 (q - q.floor)⟩

/-- Models `String(x)` for a finite number `x`. -/
def ratToJs (q : Rat) : String :=
  if q < 0 then ⟨'-' :: (ratToJsPos (-q)).data⟩ else ratToJsPos q

/-- Models JavaScript `String(v)` on cell values. -/
def jsString : Value → String
  | .num q => ratToJs q
  | .str s => s
  | .null => "null"

/-! ### The date-pattern regex

`/(\d{4}-\d{2}-\d{2}|\d{1,2}\/\d{1,2}\/\d{4}|[A-Z][a-z]{2} \d{1,2}, \d{4})/.test(s)`
— an unanchored test, i.e. some suffix of `s` begins with one of the
three alternatives. -/

/-- Four decimal digits at the head. -/
def fourDigits : List Char → Bool
  | a :: b :: c :: d :: _ => isDigitCh a && isDigitCh b && isDigitCh c && isDigitCh d
  | _ => false

/-- `\d{4}-\d{2}-\d{2}` at the head. -/
def matchISO : List Char → Bool
  | a :: b :: c :: d :: e :: f :: g :: h :: i :: j :: _ =>
    isDigitCh a && isDigitCh b && isDigitCh c && isDigitCh d && e == '-' &&
    isDigitCh f && isDigitCh g && h == '-' && isDigitCh i && isDigitCh j
  | _ => false

/-- `\d{1,2}\/\d{4}` at the head: one or two digits, a slash, four
digits (a slash is not a digit, so the two alternative widths never
overlap and the branch on the second character decides the match). -/
def slashYear : List Char → Bool
  | a :: b :: rest =>
    if b == '/' then isDigitCh a && fourDigits rest
    else
      match rest with
      | c :: rest2 => (c == '/') && isDigitCh a && isDigitCh b && fourDigits rest2
      | [] => false
  | _ => false

/-- `\d{1,2}\/\d{1,2}\/\d{4}` at the head. -/
def matchSlash : List Char → Bool
  | a :: b :: rest =>
    if b == '/' then isDigitCh a && slashYear rest
    else
      match rest with
      | c :: rest2 => (c == '/') && isDigitCh a && isDigitCh b && slashYear rest2
      | [] => false
  | _ => false

/-- `\d{1,2}, \d{4}` at the head (one or two digits, then `", "`,
then four digits; a comma is not a digit, so the second character
decides the width). -/
def monthTail : List Char → Bool
  | a :: b :: c :: rest =>
    if b == ',' then (c == ' ') && isDigitCh a && fourDigits rest
    else
      (c == ',') && isDigitCh a && isDigitCh b &&
        (match rest with
         | d :: rest2 => (d == ' ') && fourDigits rest2
         | [] => false)
  | _ => false

/-- `[A-Z][a-z]{2} \d{1,2}, \d{4}` at the head. -/
def matchMonth : List Char → Bool
  | u :: l1 :: l2 :: sp :: rest =>
    isUpperCh u && isLowerCh l1 && isLowerCh l2 && (sp == ' ') && monthTail rest
  | _ => false

/-- The source's date-likeness test on a stringified first sample. -/
def looksLikeDate (s : String) : Bool :=
  s.data.tails.any (fun t => matchISO t || matchSlash t || matchMonth t)

/-! ### JS `Set` (SameValueZero, insertion order) -/

/-- Insert preserving first occurrences. -/
def setInsert {α : Type} [DecidableEq α] (acc : List α) (v : α) : List α :=
  if v ∈ acc then acc else acc ++ [v]

/-- The distinct elements of `l`, first occurrences first. -/
def jsSetList {α : Type} [DecidableEq α] (l : List α) : List α :=
  l.foldl setInsert []

/-- `new Set(l).size`. -/
def jsSetSize {α : Type} [DecidableEq α] (l : List α) : Nat :=
  (jsSetList l).length

/-! ### The column classifier -/

/-- A column's semantic role. -/
inductive Role where
  | identifier
  | temporal
  | categorical
  | numeric
deriving DecidableEq, Repr

/-- The fixed temporal keyword set of `classifyColumn`. -/
def temporalKeywords : List String :=
  ["date", "time", "year", "month", "day", "joined", "created", "updated"]

/-- `classifyColumn(columnName, sampleValues, allValues)` from
`DataChart.jsx`, branch for branch.  The first branch flattens the
source's nested `if` (identifier-suffix name with an all-distinct
column); falling out of the inner `if` and failing the outer guard both
continue to the next test, exactly as in the source. -/
def classifyColumn (columnName : String) (sampleValues allValues : List Value) : Role :=
  let nameLower := strToLower columnName
  if strIncludes nameLower "id" && nameLower != "id" &&
      jsSetSize allValues == allValues.length then
    .identifier
  else if nameLower == "id" || nameLower == "name" then
    .identifier
  else if temporalKeywords.any (fun kw => strIncludes nameLower kw) then
    .temporal
  else if sampleValues.length > 0 && looksLikeDate (jsString (sampleValues.headD .null)) then
    .temporal
  else
    let numericCount := (sampleValues.filter isNum).length
    if numericCount == sampleValues.length && sampleValues.length > 0 then
      .numeric
    else
      let cardinality := jsSetSize (sampleValues.map jsString)
      if sampleValues.any isStr &&
          decide ((cardinality : Rat) < max 50 ((allValues.length : Rat) / 10)) then
        .categorical
      else if numericCount * 2 > sampleValues.length then
        .numeric
      else
        .categorical

/-- One column's classification as `classifyColumns` performs it: the
sample window is the first `min(100, length)` values, the cardinality
window the whole column. -/
def classifyColumnFull (name : String) (values : List Value) : Role :=
  classifyColumn name (values.take 100) values

/-- `classifyColumns(data)`: role map over the first row's keys; empty
batch yields the empty map. -/
def classifyColumns (data : List Row) : List (String × Role) :=
  match data with
  | [] => []
  | first :: _ =>
    (first.map Prod.fst).map (fun col =>
      (col, classifyColumn col ((data.take 100).map (fun r => objGet r col))
        (data.map (fun r => objGet r col))))

/-! ### The JS stable sort

`Array.prototype.sort(comparefn)` is stable (ES2019).  We model the
sorted result for a consistent comparator by stable insertion: an
element is placed before the first element it compares strictly below,
after equals.  A comparator evaluating to `NaN` is treated as `0`
(ECMAScript `SortCompare`), which `numCmp` below folds in. -/

/-- Insert `a` after every element it does not compare strictly below. -/
def jsInsert {α : Type} (lt : α → α → Bool) (a : α) : List α → List α
  | [] => [a]
  | b :: bs => if lt a b then a :: b :: bs else b :: jsInsert lt a bs

/-- Stable comparator sort: `l.sort(cmp)`. -/
def jsSortBy {α : Type} (cmp : α → α → Rat) (l : List α) : List α :=
  l.foldl (fun acc a => jsInsert (fun x y => cmp x y < 0) a acc) []

/-! ### ToNumber (for the rule-1 comparator's `(aVal || 0) - (bVal || 0)`) -/

/-- Value of a digit character. -/
def digitVal (c : Char) : Nat := c.toNat - 48

/-- Split a character list at the first non-digit. -/
def takeDigits : List Char → (List Char × List Char)
  | [] => ([], [])
  | c :: cs =>
    if isDigitCh c then
      let (ds, rest) := takeDigits cs
      (c :: ds, rest)
    else ([], c :: cs)

/-- Natural number denoted by a digit run. -/
def digitsToNat (ds : List Char) : Nat :=
  ds.foldl (fun acc c => acc * 10 + digitVal c) 0

/-- ECMAScript ToNumber on a trimmed, non-empty string: optional sign,
then decimal digits with an optional fraction.  Exotic literal forms
(exponent, hex, `Infinity`) are modelled as `none` (`NaN`); no verified
property depends on a comparator's value, only on the sorted list being
a permutation. -/
def strToNumCore (cs : List Char) : Option Rat :=
  let sb : Rat × List Char :=
    match cs with
    | '-' :: rest => (-1, rest)
    | '+' :: rest => (1, rest)
    | _ => (1, cs)
  let (ipart, rest) := takeDigits sb.2
  match rest with
  | [] => if ipart.isEmpty then none else some (sb.1 * digitsToNat ipart)
  | '.' :: rest2 =>
    let (fpart, rest3) := takeDigits rest2
    if rest3.isEmpty && !(ipart.isEmpty && fpart.isEmpty) then
      some (sb.1 * ((digitsToNat ipart : Rat) +
        (digitsToNat fpart : Rat) / ((10 : Rat) ^ fpart.length)))
    else none
  | _ => none

/-- `Number(s)` for a string (whitespace-trimmed; empty means `0`). -/
def jsToNumber (s : String) : Option Rat :=
  let cs := s.data.dropWhile (fun c => c == ' ')
  let cs2 := (cs.reverse.dropWhile (fun c => c == ' ')).reverse
  if cs2.isEmpty then some 0 else strToNumCore cs2

/-- ToNumber on a cell (`none` = `NaN`). -/
def toNumber : Value → Option Rat
  | .num q => some q
  | .str s => jsToNumber s
  | .null => some 0

/-- Numeric payload with JS-subtraction default (fields it is applied
to always hold numbers). -/
def ratOf : Value → Rat
  | .num q => q
  | _ => 0

/-- `s.localeCompare(t)` modelled as lexicographic comparison. -/
def lexCmp (s t : String) : Rat :=
  if s < t then -1 else if t < s then 1 else 0

/-- `(aVal || 0) - (bVal || 0)`, a `NaN` result standing for `0`. -/
def numCmp (a b : Value) : Rat :=
  match toNumber (jsOr a (.num 0)), toNumber (jsOr b (.num 0)) with
  | some x, some y => x - y
  | _, _ => 0

/-- The rule-1 comparator: `localeCompare` on two strings, otherwise
numeric difference of the `|| 0` defaults. -/
def rule1Cmp (timeCol : String) (a b : Row) : Rat :=
  match objGet a timeCol, objGet b timeCol with
  | .str s, .str t => lexCmp s t
  | _, _ => numCmp (objGet a timeCol) (objGet b timeCol)

/-! ### The visualization descriptor and the six rules -/

/-- A visualization descriptor as pushed by `selectVisualizations`
(`type`, reshaped `data`, `xAxis`/`yAxis` keys, `description`). -/
structure Viz where
  type : String
  data : List Row
  xAxis : String
  yAxis : String
  description : String
deriving DecidableEq, Repr

/-- Rule 1 — temporal + numeric: line chart over the rows sorted by the
first temporal column, capped at 1000. -/
def rule1 (temporal numeric : List String) (data : List Row) : List Viz :=
  match temporal, numeric with
  | timeCol :: _, metricCol :: _ =>
    let sortedData := jsSortBy (rule1Cmp timeCol) data
    [{ type := "line", data := sortedData.take 1000, xAxis := timeCol, yAxis := metricCol,
       description := "Time series: " ++ metricCol ++ " over " ++ timeCol }]
  | _, _ => []

/-- One entry of the rule-2 `grouped` object: the key and the mutable
`count`/`sum` fields (`{[catCol]: key, count: 0, sum: 0}` at creation). -/
structure GroupAcc where
  key : String
  count : Nat
  sum : Rat
deriving DecidableEq, Repr

/-- `String(row[catCol] || 'Unknown')`: the grouping key rules 2 and 5
compute (`null`, `undefined`, `0`, `""` all collapse to `"Unknown"`). -/
def groupKey (catCol : String) (row : Row) : String :=
  jsString (jsOr (objGet row catCol) (.str "Unknown"))

/-- One iteration of the rule-2 `data.forEach`: create the group on
first sight, then `count++` and, for a numeric metric cell, `sum +=`. -/
def groupStep (catCol metricCol : String) (acc : List GroupAcc) (row : Row) : List GroupAcc :=
  let key := groupKey catCol row
  let acc1 := if acc.any (fun g => g.key == key) then acc
              else acc ++ [{ key := key, count := 0, sum := 0 }]
  acc1.map (fun g =>
    if g.key == key then
      { g with count := g.count + 1,
               sum := if isNum (objGet row metricCol) then g.sum + ratOf (objGet row metricCol)
                      else g.sum }
    else g)

/-- The rule-2 `grouped` object after the forEach, in insertion order.
(A JS object would move integer-like keys such as `"3"` to the front;
that reordering only affects tie-breaking of the later stable sort and
none of the verified properties.) -/
def rule2Grouped (catCol metricCol : String) (data : List Row) : List GroupAcc :=
  data.foldl (groupStep catCol metricCol) []

/-- `{...group, [metricCol]: group.sum / group.count, _count: group.count}`.
Every group comes out of `rule2Grouped` with `count ≥ 1`, so the JS
`0/0` is unreachable and rational division is a faithful mean. -/
def aggRecord (catCol metricCol : String) (g : GroupAcc) : Row :=
  objSet (objSet (objSet (objSet (objSet [] catCol (.str g.key))
    "count" (.num g.count)) "sum" (.num g.sum))
    metricCol (.num (g.sum / (g.count : Rat)))) "_count" (.num g.count)

/-- Rule 2 — categorical + numeric: bar chart of per-category means,
sorted descending by mean, capped at 20. -/
def rule2 (categorical numeric : List String) (data : List Row) : List Viz :=
  match categorical, numeric with
  | catCol :: _, metricCol :: _ =>
    let aggregated := (rule2Grouped catCol metricCol data).map (aggRecord catCol metricCol)
    let sorted := jsSortBy
      (fun a b => ratOf (objGet b metricCol) - ratOf (objGet a metricCol)) aggregated
    [{ type := "bar", data := sorted.take 20, xAxis := catCol, yAxis := metricCol,
       description := "Average " ++ metricCol ++ " by " ++ catCol ++ " (top 20)" }]
  | _, _ => []

/-- Models `x.toFixed(1)` (sign first, then round `|x| * 10` half-up). -/
def toFixed1 (q : Rat) : String :=
  let sgn := if q < 0 then "-" else ""
  let x := if q < 0 then -q else q
  let n := (x * 10 + 1 / 2).floor.toNat
  sgn ++ ⟨natDigits (n / 10)⟩ ++ "." ++ ⟨natDigits (n % 10)⟩

/-- One histogram bin record (`bin` label, `binStart`, `count`). -/
structure HistBin where
  label : String
  binStart : Rat
  count : Nat
deriving DecidableEq, Repr

/-- The 20 zero-count bins the histogram rule starts from. -/
def histInit (mn binWidth : Rat) : List HistBin :=
  (List.range 20).map (fun (i : Nat) =>
    { label := toFixed1 (mn + (i : Rat) * binWidth) ++ "-" ++
        toFixed1 (mn + ((i : Rat) + 1) * binWidth),
      binStart := mn + (i : Rat) * binWidth,
      count := 0 })

/-- `Math.min(Math.floor((val - mn) / binWidth), 19)` under JS
semantics.  With `binWidth = 0` the division is `0/0 = NaN` (when
`val = mn`) or `±Infinity`; `Math.floor` and `Math.min` propagate
`NaN`, `Math.min(Infinity, 19) = 19`, and `Math.min(-Infinity, 19)`
stays `-Infinity`.  `none` stands for the two non-index outcomes
(`NaN`, `-Infinity`). -/
def jsBinIndex (val mn binWidth : Rat) : Option Int :=
  if binWidth = 0 then
    if val = mn then none
    else if mn < val then some 19
    else none
  else some (min (((val - mn) / binWidth).floor) 19)

/-- `histogram[i].count++`: `none` when `i` is not an index of the
array (the JS access yields `undefined` and `.count` throws). -/
def bumpBin : List HistBin → Nat → Option (List HistBin)
  | [], _ => none
  | b :: bs, 0 => some ({ b with count := b.count + 1 } :: bs)
  | b :: bs, n + 1 => (bumpBin bs n).map (fun bs2 => b :: bs2)

/-- One iteration of the histogram `values.forEach`. -/
def histStep (mn binWidth : Rat) (st : List HistBin) (val : Rat) : Option (List HistBin) :=
  match jsBinIndex val mn binWidth with
  | none => none
  | some i => if i < 0 then none else bumpBin st i.toNat

/-- `Math.min(...values)` (call sites pass a nonempty list). -/
def listMin : List Rat → Rat
  | [] => 0
  | x :: xs => xs.foldl min x

/-- `Math.max(...values)` (call sites pass a nonempty list). -/
def listMax : List Rat → Rat
  | [] => 0
  | x :: xs => xs.foldl max x

/-- The histogram reshape over the filtered finite values: with
`min = listMin values` and `binWidth = (listMax values - min) / 20`,
build the 20 bins, then count every value into its bin;
`none` = thrown TypeError. -/
def histogramBuild (values : List Rat) : Option (List HistBin) :=
  values.foldlM
    (histStep (listMin values) ((listMax values - listMin values) / 20))
    (histInit (listMin values) ((listMax values - listMin values) / 20))

/-- A bin as the record the descriptor carries. -/
def binToRow (b : HistBin) : Row :=
  [("bin", .str b.label), ("binStart", .num b.binStart), ("count", .num b.count)]

/-- `data.map(row => row[metricCol]).filter(v => typeof v === 'number' && !isNaN(v))`. -/
def numericValues (metricCol : String) (data : List Row) : List Rat :=
  (data.map (fun row => objGet row metricCol)).filterMap numPart

/-- Rule 3 — numeric distribution: 20-bin histogram of the first
numeric column, gated on ≥ 10 rows and ≥ 10 finite values.  `none`
models the TypeError thrown on a NaN bin index. -/
def rule3 (numeric : List String) (data : List Row) : Option (List Viz) :=
  match numeric with
  | metricCol :: _ =>
    if data.length ≥ 10 then
      let values := numericValues metricCol data
      if values.length ≥ 10 then
        match histogramBuild values with
        | none => none
        | some bins =>
          some [{ type := "bar", data := bins.map binToRow, xAxis := "bin", yAxis := "count",
                  description := "Distribution of " ++ metricCol ++ " (histogram)" }]
      else some []
    else some []
  | [] => some []

/-- Rule 4 — numeric + identifier: top-20 bar chart of rows with a
numeric metric and non-null label, sorted descending by the metric. -/
def rule4 (numeric identifiers : List String) (data : List Row) : List Viz :=
  match numeric, identifiers with
  | metricCol :: _, labelCol :: _ =>
    let ranked :=
      (jsSortBy (fun a b => ratOf (objGet b metricCol) - ratOf (objGet a metricCol))
        ((data.filter (fun row =>
            isNum (objGet row metricCol) && !(objGet row labelCol == Value.null))).map
          (fun row => objSet [(labelCol, .str (jsString (objGet row labelCol)))]
            metricCol (objGet row metricCol)))).take 20
    if ranked.length > 0 then
      [{ type := "bar", data := ranked, xAxis := labelCol, yAxis := metricCol,
         description := "Top " ++ toString ranked.length ++ " by " ++ metricCol }]
    else []
  | _, _ => []

/-- One entry of the rule-5 `frequency` object. -/
structure FreqAcc where
  key : String
  count : Nat
deriving DecidableEq, Repr

/-- One iteration of the rule-5 `data.forEach`:
`frequency[key] = (frequency[key] || 0) + 1`. -/
def freqStep (catCol : String) (acc : List FreqAcc) (row : Row) : List FreqAcc :=
  let key := groupKey catCol row
  if acc.any (fun g => g.key == key) then
    acc.map (fun g => if g.key == key then { g with count := g.count + 1 } else g)
  else acc ++ [{ key := key, count := 1 }]

/-- Rule 5 — categorical with no numeric column: top-30 category
frequency bar chart. -/
def rule5 (categorical numeric : List String) (data : List Row) : List Viz :=
  match categorical, numeric with
  | catCol :: _, [] =>
    let frequency := data.foldl (freqStep catCol) []
    let frequencyData :=
      (jsSortBy (fun a b => ratOf (objGet b "count") - ratOf (objGet a "count"))
        (frequency.map (fun g =>
          objSet (objSet [] catCol (.str g.key)) "count" (.num g.count)))).take 30
    if frequencyData.length > 0 then
      [{ type := "bar", data := frequencyData, xAxis := catCol, yAxis := "count",
         description := "Frequency of " ++ catCol ++ " (count)" }]
    else []
  | _, _ => []

/-- Rule 6 — two numeric columns: scatter plot of the first 500 rows
filtered to numeric pairs, renamed to generic `x`/`y` keys. -/
def rule6 (numeric : List String) (data : List Row) : List Viz :=
  match numeric with
  | xCol :: yCol :: _ =>
    let scatterData :=
      ((data.take 500).filter (fun row =>
          isNum (objGet row xCol) && isNum (objGet row yCol))).map
        (fun row => [("x", objGet row xCol), ("y", objGet row yCol)])
    if scatterData.length > 0 then
      [{ type := "scatter", data := scatterData, xAxis := xCol, yAxis := yCol,
         description := yCol ++ " vs " ++ xCol }]
    else []
  | _ => []

/-- `columns.filter(col => classifications[col] === role)` (an absent
entry, JS `undefined`, matches no role). -/
def colsWithRole (columns : List String) (classifications : List (String × Role))
    (role : Role) : List String :=
  columns.filter (fun col =>
    match classifications.find? (fun p => p.1 == col) with
    | some p => p.2 == role
    | none => false)

/-- `selectVisualizations(columns, classifications, data)`.  The outer
`Option` is totality — `none` models the TypeError the histogram rule
can throw, which discards every descriptor pushed before it; the inner
`Option` is the source's final
`visualizations.length > 0 ? visualizations : null` (`none` = `null`). -/
def selectVisualizations (columns : List String) (classifications : List (String × Role))
    (data : List Row) : Option (Option (List Viz)) :=
  let identifiers := colsWithRole columns classifications .identifier
  let temporal := colsWithRole columns classifications .temporal
  let categorical := colsWithRole columns classifications .categorical
  let numeric := colsWithRole columns classifications .numeric
  match rule3 numeric data with
  | none => none
  | some vis3 =>
    let visualizations :=
      rule1 temporal numeric data ++ rule2 categorical numeric data ++ vis3 ++
      rule4 numeric identifiers data ++ rule5 categorical numeric data ++
      rule6 numeric data
    some (if visualizations.length > 0 then some visualizations else none)

/-! ### A store-passing embedding of the engine, for the frame property

The engine writes to objects in exactly two places: the rule-2 group
records (`grouped[key].count++`, `grouped[key].sum += …`) and the
rule-3 histogram bins (`histogram[binIndex].count++`) — all freshly
allocated during the call.  To state that the *input row objects* are
never written, we re-express the engine over an explicit object store:
rows live in the store and are read through references, the two
mutating reshapers allocate their records in the store and write
through references, and the read-only rules (1, 4, 5, 6) run on the
rows materialized from the store at the point in time they execute. -/

/-- The object store: mutable JS objects addressed by reference. -/
abbrev Store := List Row

/-- Dereference (the engine never reads a dangling reference). -/
def readCell (st : Store) (r : Nat) : Row := st.getD r []

/-- `obj[k]` through a reference. -/
def readF (st : Store) (r : Nat) (k : String) : Value := objGet (readCell st r) k

/-- `obj[k] = v` through a reference. -/
def writeF (st : Store) (r : Nat) (k : String) (v : Value) : Store :=
  st.set r (objSet (readCell st r) k v)

/-- Allocate a fresh object: the extended store and the new reference. -/
def allocCell (st : Store) (row : Row) : Store × Nat := (st ++ [row], st.length)

/-- The row batch as the values its references point at. -/
def dataRows (st : Store) (dataRefs : List Nat) : List Row :=
  dataRefs.map (readCell st)

/-- `grouped[key].count++` and, for a numeric metric cell,
`grouped[key].sum += row[metricCol]`, through the group's reference. -/
def bumpGroupH (metricCol : String) (rowRef gref : Nat) (st : Store) : Store :=
  let st2 := writeF st gref "count" (.num (ratOf (readF st gref "count") + 1))
  if isNum (readF st2 rowRef metricCol) then
    writeF st2 gref "sum"
      (.num (ratOf (readF st2 gref "sum") + ratOf (readF st2 rowRef metricCol)))
  else st2

/-- Store-passing form of one rule-2 forEach iteration: find or
allocate the group record of the row's key, then bump it. -/
def groupStepH (catCol metricCol : String) :
    (Store × List (String × Nat)) → Nat → (Store × List (String × Nat))
  | (st, grefs), rowRef =>
    match grefs.find? (fun p => p.1 == groupKey catCol (readCell st rowRef)) with
    | some p => (bumpGroupH metricCol rowRef p.2 st, grefs)
    | none =>
      let key := groupKey catCol (readCell st rowRef)
      let fresh := allocCell st
        (objSet (objSet (objSet [] catCol (.str key)) "count" (.num 0)) "sum" (.num 0))
      (bumpGroupH metricCol rowRef fresh.2 fresh.1, grefs ++ [(key, fresh.2)])

/-- Store-passing rule 2: run the grouping forEach (mutating the group
records in the store), read the groups back, spread them into the
aggregated records, sort descending by mean and cap at 20. -/
def rule2H (categorical numeric : List String) (st : Store) (dataRefs : List Nat) :
    Store × List Viz :=
  match categorical, numeric with
  | catCol :: _, metricCol :: _ =>
    let res := dataRefs.foldl (groupStepH catCol metricCol) (st, [])
    let aggregated := res.2.map (fun p =>
      let g := readCell res.1 p.2
      objSet (objSet g metricCol
        (.num (ratOf (objGet g "sum") / ratOf (objGet g "count")))) "_count" (objGet g "count"))
    let sorted := jsSortBy
      (fun a b => ratOf (objGet b metricCol) - ratOf (objGet a metricCol)) aggregated
    (res.1, [{ type := "bar", data := sorted.take 20, xAxis := catCol, yAxis := metricCol,
               description := "Average " ++ metricCol ++ " by " ++ catCol ++ " (top 20)" }])
  | _, _ => (st, [])

/-- Allocate the 20 histogram-bin objects, returning their references
in bin order. -/
def allocBins (st : Store) (mn binWidth : Rat) : Store × List Nat :=
  (List.range 20).foldl (fun (acc : Store × List Nat) (i : Nat) =>
    let fresh := allocCell acc.1
      [("bin", .str (toFixed1 (mn + (i : Rat) * binWidth) ++ "-" ++
          toFixed1 (mn + ((i : Rat) + 1) * binWidth))),
       ("binStart", .num (mn + (i : Rat) * binWidth)),
       ("count", .num 0)]
    (fresh.1, acc.2 ++ [fresh.2])) (st, [])

/-- The histogram forEach over the store: `histogram[binIndex].count++`
through the bin references; `false` records that the bin index was not
a valid array index (`NaN`) and the iteration threw, leaving the store
as written so far. -/
def histFoldH (binRefs : List Nat) (mn binWidth : Rat) : Store → List Rat → Store × Bool
  | st, [] => (st, true)
  | st, v :: vs =>
    match jsBinIndex v mn binWidth with
    | none => (st, false)
    | some i =>
      if 0 ≤ i ∧ i.toNat < binRefs.length then
        histFoldH binRefs mn binWidth
          (writeF st (binRefs.getD i.toNat 0) "count"
            (.num (ratOf (readF st (binRefs.getD i.toNat 0) "count") + 1))) vs
      else (st, false)

/-- Store-passing rule 3; `none` in the second component models the
thrown TypeError. -/
def rule3H (numeric : List String) (st : Store) (dataRefs : List Nat) :
    Store × Option (List Viz) :=
  match numeric with
  | metricCol :: _ =>
    if dataRefs.length ≥ 10 then
      let values := (dataRefs.map (fun r => readF st r metricCol)).filterMap numPart
      if values.length ≥ 10 then
        let ab := allocBins st (listMin values) ((listMax values - listMin values) / 20)
        let res := histFoldH ab.2 (listMin values) ((listMax values - listMin values) / 20)
          ab.1 values
        if res.2 then
          (res.1, some [{ type := "bar", data := ab.2.map (fun r => readCell res.1 r),
                          xAxis := "bin", yAxis := "count",
                          description := "Distribution of " ++ metricCol ++ " (histogram)" }])
        else (res.1, none)
      else (st, some [])
    else (st, some [])
  | [] => (st, some [])

/-- Store-passing `selectVisualizations`: rule 1 reads the rows before
any write, rules 2 and 3 thread the store, rules 4–6 read the rows
after them; a rule-3 throw aborts the call with the store as written. -/
def selectVisualizationsH (columns : List String) (cls : List (String × Role))
    (st : Store) (dataRefs : List Nat) : Store × Option (Option (List Viz)) :=
  let identifiers := colsWithRole columns cls .identifier
  let temporal := colsWithRole columns cls .temporal
  let categorical := colsWithRole columns cls .categorical
  let numeric := colsWithRole columns cls .numeric
  let vis1 := rule1 temporal numeric (dataRows st dataRefs)
  let p2 := rule2H categorical numeric st dataRefs
  let p3 := rule3H numeric p2.1 dataRefs
  match p3.2 with
  | none => (p3.1, none)
  | some vis3 =>
    let rows3 := dataRows p3.1 dataRefs
    let visualizations := vis1 ++ p2.2 ++ vis3 ++
      rule4 numeric identifiers rows3 ++ rule5 categorical numeric rows3 ++
      rule6 numeric rows3
    (p3.1, some (if visualizations.length > 0 then some visualizations else none))

/-! ### Concrete batches used to exercise the rules -/

/-- Ten one-column rows holding the values 0–9. -/
def tenRows : List Row :=
  [[("a", Value.num 0)], [("a", Value.num 1)], [("a", Value.num 2)], [("a", Value.num 3)],
   [("a", Value.num 4)], [("a", Value.num 5)], [("a", Value.num 6)], [("a", Value.num 7)],
   [("a", Value.num 8)], [("a", Value.num 9)]]

/-- A two-column row whose second metric is null (an invalid scatter
pair). -/
def badPair : Row := [("a", Value.num 0), ("b", Value.null)]

/-- A two-column row with both metrics numeric (a valid scatter pair). -/
def goodPair : Row := [("a", Value.num 1), ("b", Value.num 1)]

/-- 501 rows: one invalid pair followed by 500 valid pairs. -/
def manyRows : List Row := badPair :: List.replicate 500 goodPair

/-! ## Basic lemmas about the embedding -/

theorem jsInsert_perm {α : Type} (lt : α → α → Bool) (a : α) (l : List α) :
    List.Perm (jsInsert lt a l) (a :: l) := by
  induction l with
  | nil => exact List.Perm.refl _
  | cons b bs ih =>
    unfold jsInsert
    split
    · exact List.Perm.refl _
    · exact (ih.cons b).trans (List.Perm.swap a b bs)

theorem foldl_jsInsert_perm {α : Type} (lt : α → α → Bool) :
    ∀ (l acc : List α), List.Perm (l.foldl (fun acc a => jsInsert lt a acc) acc) (acc ++ l) := by
  intro l
  induction l with
  | nil => intro acc; simp
  | cons a as ih =>
    intro acc
    refine ((ih (jsInsert lt a acc)).trans ?_)
    exact ((jsInsert_perm lt a acc).append_right as).trans List.perm_middle.symm

theorem jsSortBy_perm {α : Type} (cmp : α → α → Rat) (l : List α) :
    List.Perm (jsSortBy cmp l) l := by
  simpa [jsSortBy] using foldl_jsInsert_perm (fun x y => decide (cmp x y < 0)) l []

theorem length_jsSortBy {α : Type} (cmp : α → α → Rat) (l : List α) :
    (jsSortBy cmp l).length = l.length :=
  (jsSortBy_perm cmp l).length_eq

theorem mem_jsSortBy {α : Type} {cmp : α → α → Rat} {l : List α} {x : α} :
    x ∈ jsSortBy cmp l ↔ x ∈ l :=
  (jsSortBy_perm cmp l).mem_iff

theorem hasKey_objSet_self (r : Row) (k : String) (v : Value) :
    hasKey (objSet r k v) k = true := by
  induction r with
  | nil => simp [objSet, hasKey]
  | cons p ps ih =>
    by_cases h : p.1 == k
    · simp [objSet, hasKey, h]
    · simp [objSet, hasKey, h, ih]

theorem hasKey_objSet_of (r : Row) (k k' : String) (v : Value) (h : hasKey r k' = true) :
    hasKey (objSet r k v) k' = true := by
  induction r with
  | nil => simp [hasKey] at h
  | cons p ps ih =>
    simp only [hasKey, Bool.or_eq_true] at h
    by_cases hp : p.1 = k
    · rcases h with h | h
      · have hkk : (k == k') = true := by rw [← hp]; exact h
        simp [objSet, hp, hasKey, hkk]
      · simp [objSet, hp, hasKey, h]
    · rcases h with h | h
      · simp [objSet, hp, hasKey, h]
      · simp [objSet, hp, hasKey, ih h]

theorem objGet_objSet_self (r : Row) (k : String) (v : Value) :
    objGet (objSet r k v) k = v := by
  induction r with
  | nil => simp [objSet, objGet]
  | cons p ps ih =>
    by_cases h : p.1 == k
    · simp [objSet, objGet, h]
    · simp [objSet, objGet, h, ih]

theorem objGet_objSet_ne (r : Row) (k k' : String) (v : Value) (h : k' ≠ k) :
    objGet (objSet r k v) k' = objGet r k' := by
  have hne : ¬(k = k') := fun hh => h hh.symm
  induction r with
  | nil => simp [objSet, objGet, hne]
  | cons p ps ih =>
    by_cases hp : p.1 = k
    · have hp' : ¬(p.1 = k') := by rw [hp]; exact hne
      simp [objSet, objGet, hp, hne, hp']
    · by_cases hp' : p.1 = k'
      · simp [objSet, objGet, hp, hp', h]
      · simp [objSet, objGet, hp, hp', ih]

theorem rule3_nil_data (numeric : List String) : rule3 numeric [] = some [] := by
  cases numeric with
  | nil => rfl
  | cons m rest => simp [rule3]

/-! ## C1 -/

/-- C1 — counterexample.  The claim says `selectVisualizations` returns
an empty sequence (not an absent value) when no rule matches, in
particular on an empty row batch.  On the empty role map and empty
batch the source executes `return visualizations.length > 0 ?
visualizations : null` and returns `null` (inner `none`), which is not
an empty sequence. -/
theorem selectVisualizations_empty_input_returns_null :
    selectVisualizations [] [] [] = some none ∧
    some (none : Option (List Viz)) ≠ some (some ([] : List Viz)) :=
  ⟨rfl, by simp⟩

/-- C1 (amended): when no rule matches, `selectVisualizations` returns
`null`, never an empty array — callers must branch on absence; and on
an empty row batch the call returns without throwing (`null`, or a
descriptor list when a rule-guard passes on the role map alone). -/
theorem selectVisualizations_never_empty_array (columns : List String)
    (cls : List (String × Role)) (data : List Row) :
    selectVisualizations columns cls data ≠ some (some []) ∧
    ∃ r, selectVisualizations columns cls [] = some r := by
  constructor
  · simp only [selectVisualizations]
    cases h3 : rule3 (colsWithRole columns cls .numeric) data with
    | none => simp
    | some vis3 =>
      simp only
      split
      · rename_i hlen
        intro hc
        simp only [Option.some.injEq] at hc
        rw [hc] at hlen
        simp at hlen
      · simp
  · simp only [selectVisualizations]
    rw [rule3_nil_data]
    exact ⟨_, rfl⟩

/-! ## Lemmas about the individual rules -/

theorem groupStep_ne_nil (catCol metricCol : String) (acc : List GroupAcc) (row : Row) :
    groupStep catCol metricCol acc row ≠ [] := by
  unfold groupStep
  intro h
  rw [List.map_eq_nil_iff] at h
  split at h
  · rename_i hany
    rw [h] at hany
    simp at hany
  · simp at h

theorem rule2Grouped_ne_nil (catCol metricCol : String) (data : List Row) (hdata : data ≠ []) :
    rule2Grouped catCol metricCol data ≠ [] := by
  unfold rule2Grouped
  have main : ∀ (l : List Row) (acc : List GroupAcc), acc ≠ [] ∨ l ≠ [] →
      l.foldl (groupStep catCol metricCol) acc ≠ [] := by
    intro l
    induction l with
    | nil =>
      intro acc h
      rcases h with h | h
      · simpa using h
      · simp at h
    | cons r rs ih =>
      intro acc _
      simp only [List.foldl_cons]
      exact ih (groupStep catCol metricCol acc r) (Or.inl (groupStep_ne_nil _ _ _ _))
  exact main data [] (Or.inr hdata)

theorem bumpBin_length : ∀ (l : List HistBin) (n : Nat) (l2 : List HistBin),
    bumpBin l n = some l2 → l2.length = l.length := by
  intro l
  induction l with
  | nil => intro n l2 h; simp [bumpBin] at h
  | cons b bs ih =>
    intro n l2 h
    cases n with
    | zero =>
      simp only [bumpBin, Option.some.injEq] at h
      subst h
      simp
    | succ m =>
      simp only [bumpBin, Option.map_eq_some'] at h
      obtain ⟨bs2, hbs2, hl2⟩ := h
      subst hl2
      simp [ih m bs2 hbs2]

theorem histStep_length (mn bw : Rat) (st : List HistBin) (v : Rat) (st2 : List HistBin)
    (h : histStep mn bw st v = some st2) : st2.length = st.length := by
  unfold histStep at h
  cases hidx : jsBinIndex v mn bw with
  | none => rw [hidx] at h; simp at h
  | some i =>
    rw [hidx] at h
    simp only at h
    by_cases hi : i < 0
    · rw [if_pos hi] at h; simp at h
    · rw [if_neg hi] at h
      exact bumpBin_length st _ st2 h

theorem histFold_length (mn bw : Rat) :
    ∀ (vals : List Rat) (st st2 : List HistBin),
      List.foldlM (histStep mn bw) st vals = some st2 → st2.length = st.length := by
  intro vals
  induction vals with
  | nil =>
    intro st st2 h
    simp only [List.foldlM_nil, Option.pure_def, Option.some.injEq] at h
    rw [← h]
  | cons v vs ih =>
    intro st st2 h
    simp only [List.foldlM_cons] at h
    cases hst : histStep mn bw st v with
    | none => rw [hst] at h; simp at h
    | some st1 =>
      rw [hst] at h
      simp only [Option.bind_eq_bind, Option.some_bind] at h
      exact (ih st1 st2 h).trans (histStep_length mn bw st v st1 hst)

theorem histogramBuild_length (values : List Rat) (bins : List HistBin)
    (h : histogramBuild values = some bins) : bins.length = 20 := by
  unfold histogramBuild at h
  have hl := histFold_length _ _ values _ _ h
  simpa [histInit] using hl

theorem rule1_data_ne_nil {temporal numeric : List String} {data : List Row} {viz : Viz}
    (hdata : data ≠ []) (h : viz ∈ rule1 temporal numeric data) : viz.data ≠ [] := by
  unfold rule1 at h
  cases temporal with
  | nil => simp at h
  | cons t ts =>
    cases numeric with
    | nil => simp at h
    | cons m ms =>
      simp only [List.mem_singleton] at h
      subst h
      simp only
      intro hnil
      rcases List.take_eq_nil_iff.mp hnil with h0 | h0
      · simp at h0
      · have hlen := length_jsSortBy (rule1Cmp t) data
        rw [h0] at hlen
        exact hdata (List.length_eq_zero.mp hlen.symm)

theorem rule2_data_ne_nil {categorical numeric : List String} {data : List Row} {viz : Viz}
    (hdata : data ≠ []) (h : viz ∈ rule2 categorical numeric data) : viz.data ≠ [] := by
  unfold rule2 at h
  cases categorical with
  | nil => simp at h
  | cons c cs =>
    cases numeric with
    | nil => simp at h
    | cons m ms =>
      simp only [List.mem_singleton] at h
      subst h
      simp only
      intro hnil
      rcases List.take_eq_nil_iff.mp hnil with h0 | h0
      · simp at h0
      · have hlen := length_jsSortBy (fun a b => ratOf (objGet b m) - ratOf (objGet a m))
          ((rule2Grouped c m data).map (aggRecord c m))
        rw [h0] at hlen
        have hmap : (rule2Grouped c m data).map (aggRecord c m) = [] :=
          List.length_eq_zero.mp hlen.symm
        rw [List.map_eq_nil_iff] at hmap
        exact rule2Grouped_ne_nil c m data hdata hmap

theorem rule3_data_ne_nil {numeric : List String} {data : List Row} {vis3 : List Viz} {viz : Viz}
    (h3 : rule3 numeric data = some vis3) (h : viz ∈ vis3) : viz.data ≠ [] := by
  cases numeric with
  | nil =>
    simp only [rule3, Option.some.injEq] at h3
    subst h3
    simp at h
  | cons m ms =>
    simp only [rule3] at h3
    split at h3
    · split at h3
      · cases hb : histogramBuild (numericValues m data) with
        | none => rw [hb] at h3; simp at h3
        | some bins =>
          rw [hb] at h3
          simp only [Option.some.injEq] at h3
          subst h3
          simp only [List.mem_singleton] at h
          subst h
          simp only
          intro hnil
          rw [List.map_eq_nil_iff] at hnil
          have h20 := histogramBuild_length _ _ hb
          rw [hnil] at h20
          simp at h20
      · simp only [Option.some.injEq] at h3
        subst h3
        simp at h
    · simp only [Option.some.injEq] at h3
      subst h3
      simp at h

theorem rule4_data_ne_nil {numeric identifiers : List String} {data : List Row} {viz : Viz}
    (h : viz ∈ rule4 numeric identifiers data) : viz.data ≠ [] := by
  cases numeric with
  | nil => simp [rule4] at h
  | cons m ms =>
    cases identifiers with
    | nil => simp [rule4] at h
    | cons l ls =>
      simp only [rule4] at h
      split at h
      · rename_i hlen
        simp only [List.mem_singleton] at h
        subst h
        simp only
        exact List.ne_nil_of_length_pos hlen
      · simp at h

theorem rule5_data_ne_nil {categorical numeric : List String} {data : List Row} {viz : Viz}
    (h : viz ∈ rule5 categorical numeric data) : viz.data ≠ [] := by
  cases categorical with
  | nil => simp [rule5] at h
  | cons c cs =>
    cases numeric with
    | cons m ms => simp [rule5] at h
    | nil =>
      simp only [rule5] at h
      split at h
      · rename_i hlen
        simp only [List.mem_singleton] at h
        subst h
        simp only
        exact List.ne_nil_of_length_pos hlen
      · simp at h

theorem rule6_data_ne_nil {numeric : List String} {data : List Row} {viz : Viz}
    (h : viz ∈ rule6 numeric data) : viz.data ≠ [] := by
  cases numeric with
  | nil => simp [rule6] at h
  | cons x xs =>
    cases xs with
    | nil => simp [rule6] at h
    | cons y ys =>
      simp only [rule6] at h
      split at h
      · rename_i hlen
        simp only [List.mem_singleton] at h
        subst h
        simp only
        exact List.ne_nil_of_length_pos hlen
      · simp at h

/-! ## C2 -/

/-- C2 — counterexample.  The claim says every descriptor returned by
`selectVisualizations` has a non-empty `data` sequence.  With a role
map pairing a temporal and a numeric column and an *empty* row batch,
rule 1's guard (which looks only at the role map) passes and the rule
pushes its descriptor unconditionally, so the engine returns a line
descriptor whose `data` is empty. -/
theorem empty_batch_line_descriptor_has_empty_data :
    selectVisualizations ["t", "v"] [("t", .temporal), ("v", .numeric)] [] =
      some (some [{ type := "line", data := [], xAxis := "t", yAxis := "v",
                    description := "Time series: v over t" }]) :=
  rfl

/-- C2 (amended): on a *non-empty* row batch every descriptor the
engine returns has non-empty `data` (rules 3–6 guard emptiness
explicitly, rules 1 and 2 reshape a non-empty batch into non-empty
data); only an empty batch can produce empty-`data` descriptors, via
rules 1 and 2. -/
theorem descriptors_nonempty_data_of_batch_nonempty (columns : List String)
    (cls : List (String × Role)) (data : List Row) (vs : List Viz)
    (hdata : data ≠ []) (hres : selectVisualizations columns cls data = some (some vs)) :
    ∀ viz ∈ vs, viz.data ≠ [] := by
  intro viz hviz
  simp only [selectVisualizations] at hres
  cases h3 : rule3 (colsWithRole columns cls .numeric) data with
  | none => rw [h3] at hres; simp at hres
  | some vis3 =>
    rw [h3] at hres
    simp only at hres
    split at hres
    · simp only [Option.some.injEq] at hres
      subst hres
      rcases List.mem_append.mp hviz with h5' | h6
      case inr => exact rule6_data_ne_nil h6
      rcases List.mem_append.mp h5' with h4' | h5
      case inr => exact rule5_data_ne_nil h5
      rcases List.mem_append.mp h4' with h3' | h4
      case inr => exact rule4_data_ne_nil h4
      rcases List.mem_append.mp h3' with h2' | hh3
      case inr => exact rule3_data_ne_nil h3 hh3
      rcases List.mem_append.mp h2' with h1 | h2
      case inr => exact rule2_data_ne_nil hdata h2
      exact rule1_data_ne_nil hdata h1
    · simp at hres

/-- C2 — witness: the amended theorem applied to a one-row batch with
one categorical column, whose rule-5 descriptor has the singleton
frequency record as its data. -/
theorem descriptors_nonempty_data_witness :
    ({ type := "bar", data := [[("c", Value.str "A"), ("count", Value.num 1)]],
       xAxis := "c", yAxis := "count",
       description := "Frequency of c (count)" } : Viz).data ≠ [] :=
  descriptors_nonempty_data_of_batch_nonempty ["c"] [("c", .categorical)]
    [[("c", .str "A")]]
    [{ type := "bar", data := [[("c", Value.str "A"), ("count", Value.num 1)]],
       xAxis := "c", yAxis := "count", description := "Frequency of c (count)" }]
    (by simp) rfl _ (List.mem_singleton.mpr rfl)

/-! ## The rendering of a number never matches the date pattern -/

theorem digitCh_digit {d : Nat} (h : d ≤ 9) : isDigitCh (digitCh d) = true := by
  interval_cases d <;> decide

theorem plainCh_not_special {c : Char} (h : plainCh c = true) :
    c ≠ '-' ∧ c ≠ '/' ∧ c ≠ ',' ∧ isUpperCh c = false ∧ isLowerCh c = false := by
  simp only [plainCh, Bool.or_eq_true, beq_iff_eq] at h
  rcases h with h | h
  · simp only [isDigitCh, Bool.and_eq_true, decide_eq_true_eq] at h
    refine ⟨?_, ?_, ?_, ?_, ?_⟩
    · intro hEq; rw [hEq] at h; exact absurd h (by decide)
    · intro hEq; rw [hEq] at h; exact absurd h (by decide)
    · intro hEq; rw [hEq] at h; exact absurd h (by decide)
    · have h65 : ¬(65 ≤ c.toNat ∧ c.toNat ≤ 90) := by omega
      simp only [isUpperCh, Bool.and_eq_true, decide_eq_true_eq]
      simpa [Decidable.not_and_iff_or_not] using h65
    · have h97 : ¬(97 ≤ c.toNat ∧ c.toNat ≤ 122) := by omega
      simp only [isLowerCh, Bool.and_eq_true, decide_eq_true_eq]
      simpa [Decidable.not_and_iff_or_not] using h97
  · subst h
    exact ⟨by decide, by decide, by decide, by decide, by decide⟩

theorem natDigitsF_digits : ∀ (fuel n : Nat), ∀ c ∈ natDigitsF fuel n, isDigitCh c = true := by
  intro fuel
  induction fuel with
  | zero => intro n c hc; simp [natDigitsF] at hc
  | succ f ih =>
    intro n c hc
    unfold natDigitsF at hc
    split at hc
    · rename_i hn
      simp only [List.mem_singleton] at hc
      subst hc
      exact digitCh_digit (by omega)
    · rcases List.mem_append.mp hc with hc | hc
      · exact ih _ c hc
      · simp only [List.mem_singleton] at hc
        subst hc
        exact digitCh_digit (by omega)

theorem fracDigits_digits : ∀ (fuel : Nat) (q : Rat), 0 ≤ q → q < 1 →
    ∀ c ∈ fracDigits fuel q, isDigitCh c = true := by
  intro fuel
  induction fuel with
  | zero => intro q _ _ c hc; simp [fracDigits] at hc
  | succ f ih =>
    intro q h0 h1 c hc
    unfold fracDigits at hc
    split at hc
    · simp at hc
    · rename_i hq
      push_neg at hq
      have hfl₀ : (0 : Int) ≤ ⌊q * 10⌋ := Int.floor_nonneg.mpr (by linarith)
      have hfl₉ : ⌊q * 10⌋ < 10 := Int.floor_lt.mpr (by push_cast; linarith)
      rcases List.mem_cons.mp hc with hc | hc
      · subst hc
        have hle : (⌊q * 10⌋).toNat ≤ 9 := by omega
        exact digitCh_digit (show (q * 10).floor.toNat ≤ 9 from hle)
      · have hlow : (0 : Rat) ≤ q * 10 - ((⌊q * 10⌋ : Int) : Rat) := by
          have := Int.floor_le (q * 10)
          linarith
        have hhigh : q * 10 - ((⌊q * 10⌋ : Int) : Rat) < 1 := by
          have := Int.lt_floor_add_one (q * 10)
          linarith
        exact ih _ hlow hhigh c hc

theorem natDigits_digits (n : Nat) : ∀ c ∈ natDigits n, isDigitCh c = true :=
  natDigitsF_digits (n + 1) n

theorem natDigits_ne_nil (n : Nat) : natDigits n ≠ [] := by
  unfold natDigits natDigitsF
  split
  · simp
  · simp

theorem ratToJsPos_plain (q : Rat) : ∀ c ∈ (ratToJsPos q).data, plainCh c = true := by
  unfold ratToJsPos
  have hlow : (0 : Rat) ≤ q - ((⌊q⌋ : Int) : Rat) := by
    have h := Int.floor_le q
    linarith
  have hhigh : q - ((⌊q⌋ : Int) : Rat) < 1 := by
    have h := Int.lt_floor_add_one q
    linarith
  split
  · intro c hc
    simp only [plainCh, Bool.or_eq_true]
    exact Or.inl (natDigits_digits _ c hc)
  · intro c hc
    simp only [plainCh, Bool.or_eq_true]
    rcases List.mem_append.mp hc with hc | hc
    · exact Or.inl (natDigits_digits _ c hc)
    · rcases List.mem_cons.mp hc with hc | hc
      · subst hc; exact Or.inr (by decide)
      · exact Or.inl (fracDigits_digits 20 _ hlow hhigh c hc)

theorem matchISO_cons_false {a : Char} {t : List Char}
    (hp : ∀ c ∈ t, plainCh c = true) : matchISO (a :: t) = false := by
  rcases t with _ | ⟨b, _ | ⟨c2, _ | ⟨d, _ | ⟨e, _ | ⟨f, _ | ⟨g, _ | ⟨h2, _ | ⟨i, _ | ⟨j, rest⟩⟩⟩⟩⟩⟩⟩⟩⟩ <;>
    try rfl
  have he : (e == '-') = false :=
    beq_eq_false_iff_ne.mpr (plainCh_not_special (hp e (by simp))).1
  simp [matchISO, he]

theorem matchSlash_cons_false {a : Char} {t : List Char}
    (hp : ∀ c ∈ t, plainCh c = true) : matchSlash (a :: t) = false := by
  cases t with
  | nil => rfl
  | cons b t2 =>
    have hb : (b == '/') = false :=
      beq_eq_false_iff_ne.mpr (plainCh_not_special (hp b (by simp))).2.1
    cases t2 with
    | nil => simp [matchSlash, hb]
    | cons c2 t3 =>
      have hc : (c2 == '/') = false :=
        beq_eq_false_iff_ne.mpr (plainCh_not_special (hp c2 (by simp))).2.1
      simp [matchSlash, hb, hc]

theorem matchMonth_cons_false {a : Char} {t : List Char}
    (hp : ∀ c ∈ t, plainCh c = true) : matchMonth (a :: t) = false := by
  rcases t with _ | ⟨l1, _ | ⟨l2, _ | ⟨sp, rest⟩⟩⟩ <;> try rfl
  have hl : isLowerCh l1 = false := (plainCh_not_special (hp l1 (by simp))).2.2.2.2
  simp [matchMonth, hl]

theorem matcher_triple_false {t : List Char}
    (hp : ∀ c ∈ t.drop 1, plainCh c = true) :
    (matchISO t || matchSlash t || matchMonth t) = false := by
  cases t with
  | nil => rfl
  | cons a t' =>
    simp only [List.drop_succ_cons, List.drop_zero] at hp
    simp [matchISO_cons_false hp, matchSlash_cons_false hp, matchMonth_cons_false hp]

theorem looksLikeDate_false_core {l : List Char}
    (hp : ∀ t ∈ l.tails, ∀ c ∈ t.drop 1, plainCh c = true) :
    looksLikeDate ⟨l⟩ = false := by
  unfold looksLikeDate
  rw [List.any_eq_false]
  intro t ht
  rw [matcher_triple_false (hp t ht)]
  simp

theorem looksLikeDate_plainAll {l : List Char} (hp : ∀ c ∈ l, plainCh c = true) :
    looksLikeDate ⟨l⟩ = false := by
  refine looksLikeDate_false_core fun t ht c hc => ?_
  have hsub : t ⊆ l := ((List.mem_tails t l).mp ht).sublist.subset
  exact hp c (hsub (List.drop_subset 1 t hc))

theorem looksLikeDate_dashHead {rest : List Char} (hp : ∀ c ∈ rest, plainCh c = true) :
    looksLikeDate ⟨'-' :: rest⟩ = false := by
  refine looksLikeDate_false_core fun t ht c hc => ?_
  have hsfx : t <:+ ('-' :: rest) := (List.mem_tails t _).mp ht
  rcases List.suffix_cons_iff.mp hsfx with h | h
  · subst h
    simp only [List.drop_succ_cons, List.drop_zero] at hc
    exact hp c hc
  · exact hp c (h.sublist.subset (List.drop_subset 1 t hc))

theorem looksLikeDate_ratToJs (q : Rat) : looksLikeDate (ratToJs q) = false := by
  unfold ratToJs
  split
  · exact looksLikeDate_dashHead (ratToJsPos_plain (-q))
  · have h := ratToJsPos_plain q
    cases hq : ratToJsPos q with
    | mk l => rw [hq] at h; exact looksLikeDate_plainAll h

/-! ## C7 -/

/-- C7: a column named exactly `id` or exactly `name`
(case-insensitively) always classifies as `identifier`, whatever its
sampled values and full value column are.  The id-substring branch
before it cannot fire for `id` (its own guard excludes the bare name)
nor for `name` (which does not contain the substring `id`). -/
theorem classify_id_name_identifier (name : String) (samples allValues : List Value)
    (h : strToLower name = "id" ∨ strToLower name = "name") :
    classifyColumn name samples allValues = .identifier := by
  unfold classifyColumn
  rcases h with h | h <;> rw [h]
  · have h1 : ("id" != "id") = false := by decide
    simp [h1]
  · have h1 : strIncludes "name" "id" = false := by decide
    simp [h1]

/-- C7 — witness at the column name `Name` (mixed case) with a numeric
value distribution. -/
theorem classify_id_name_identifier_witness :
    classifyColumn "Name" [Value.num 1] [Value.num 1] = .identifier :=
  classify_id_name_identifier "Name" [Value.num 1] [Value.num 1] (Or.inr (by decide))

/-! ## C8 -/

/-- C8 — counterexample.  The claim says a column whose values are all
finite numbers and whose name contains no temporal keyword classifies
`numeric`.  A column named `name` (no temporal keyword) holding the
single finite number `1` classifies `identifier`: the identifier name
check precedes the numeric check. -/
theorem numeric_name_column_classifies_identifier :
    classifyColumnFull "name" [Value.num 1] = .identifier ∧
    Role.identifier ≠ Role.numeric :=
  ⟨by decide, by decide⟩

/-- C8 (amended): a *non-empty* column whose values are all finite
numbers and whose name contains no temporal keyword classifies
`numeric`, provided the name does not take one of the two identifier
branches first: it is not exactly `id`/`name` (case-insensitively),
and it does not both contain the substring `id` and have pairwise
distinct values. -/
theorem classify_numeric_of_no_identifier_no_temporal (name : String) (values : List Value)
    (hne : values ≠ [])
    (hnum : ∀ v ∈ values, isNum v = true)
    (hkw : ∀ kw ∈ temporalKeywords, strIncludes (strToLower name) kw = false)
    (hid : ¬ strToLower name = "id") (hname : ¬ strToLower name = "name")
    (hsub : strIncludes (strToLower name) "id" = false ∨ jsSetSize values ≠ values.length) :
    classifyColumnFull name values = .numeric := by
  obtain ⟨v, vs, rfl⟩ := List.exists_cons_of_ne_nil hne
  have hv : isNum v = true := hnum v (by simp)
  obtain ⟨q, rfl⟩ : ∃ q, v = .num q := by
    cases v with
    | num q => exact ⟨q, rfl⟩
    | str s => simp [isNum] at hv
    | null => simp [isNum] at hv
  have hb1 : (strIncludes (strToLower name) "id" && (strToLower name != "id") &&
      (jsSetSize (Value.num q :: vs) == (Value.num q :: vs).length)) = false := by
    rcases hsub with h | h
    · rw [h, Bool.false_and, Bool.false_and]
    · have hne2 : (jsSetSize (Value.num q :: vs) == (Value.num q :: vs).length) = false :=
        beq_eq_false_iff_ne.mpr h
      rw [hne2, Bool.and_false]
  have hb2 : ((strToLower name == "id") || (strToLower name == "name")) = false := by
    simp [hid, hname]
  have hb3 : (temporalKeywords.any fun kw => strIncludes (strToLower name) kw) = false :=
    List.any_eq_false.mpr fun kw hkw2 => by simp [hkw kw hkw2]
  have htake : (Value.num q :: vs).take 100 = Value.num q :: vs.take 99 := rfl
  have hb4 : looksLikeDate (jsString (((Value.num q :: vs).take 100).headD .null)) = false := by
    rw [htake]
    simp only [List.headD_cons]
    exact looksLikeDate_ratToJs q
  have hb5 : ((((Value.num q :: vs).take 100).filter isNum).length ==
      ((Value.num q :: vs).take 100).length) = true := by
    have hfil : ((Value.num q :: vs).take 100).filter isNum = (Value.num q :: vs).take 100 :=
      List.filter_eq_self.mpr fun a ha => hnum a (List.take_subset 100 _ ha)
    rw [hfil]
    simp
  have hb6 : (0 < ((Value.num q :: vs).take 100).length) = True := by
    simp [htake]
  simp only [classifyColumnFull, classifyColumn, hb1, hb2, hb3, hb4, hb5,
    Bool.false_eq_true, if_false, Bool.and_false, Bool.true_and]
  simp [htake]

/-- C8 — witness: a non-empty all-numeric column named `score`. -/
theorem classify_numeric_witness :
    classifyColumnFull "score" [Value.num 1, Value.num 2] = .numeric :=
  classify_numeric_of_no_identifier_no_temporal "score" [Value.num 1, Value.num 2]
    (by decide) (by decide) (by decide) (by decide) (by decide) (Or.inl (by decide))

/-! ## C6 -/

theorem foldl_min_replicate : ∀ (n : Nat) (q : Rat), (List.replicate n q).foldl min q = q := by
  intro n
  induction n with
  | zero => intro q; rfl
  | succ m ih => intro q; simp [List.replicate_succ, min_self, ih]

theorem foldl_max_replicate : ∀ (n : Nat) (q : Rat), (List.replicate n q).foldl max q = q := by
  intro n
  induction n with
  | zero => intro q; rfl
  | succ m ih => intro q; simp [List.replicate_succ, max_self, ih]

theorem filterMap_numPart_replicate (n : Nat) (q : Rat) :
    (List.replicate n (Value.num q)).filterMap numPart = List.replicate n q := by
  induction n with
  | zero => rfl
  | succ m ih => simp [List.replicate_succ, List.filterMap_cons, numPart, ih]

theorem histogramBuild_replicate_none (q : Rat) (n : Nat) (h10 : 10 ≤ n) :
    histogramBuild (List.replicate n q) = none := by
  obtain ⟨m, rfl⟩ : ∃ m, n = m + 1 := ⟨n - 1, by omega⟩
  have hmin : listMin (List.replicate (m + 1) q) = q := by
    rw [List.replicate_succ]
    show (List.replicate m q).foldl min q = q
    exact foldl_min_replicate m q
  have hmax : listMax (List.replicate (m + 1) q) = q := by
    rw [List.replicate_succ]
    show (List.replicate m q).foldl max q = q
    exact foldl_max_replicate m q
  unfold histogramBuild
  rw [hmin, hmax]
  have hbw : (q - q) / 20 = 0 := by rw [sub_self, zero_div]
  rw [hbw, List.replicate_succ, List.foldlM_cons]
  have hstep : histStep q 0 (histInit q 0) q = none := by
    unfold histStep jsBinIndex
    simp
  rw [hstep]
  rfl

/-- C6: when the first numeric column holds at least 10 finite values
that are all equal, the bin width is zero, the bin-index computation is
`0/0 = NaN`, and `histogram[NaN].count++` throws: the histogram reshape
is `none` (not a descriptor, not a skipped rule), and the whole
`selectVisualizations` call on such a batch throws instead of
returning. -/
theorem histogram_throws_on_constant_column (q : Rat) (n : Nat) (h10 : 10 ≤ n) :
    histogramBuild (List.replicate n q) = none ∧
    ∀ name : String, selectVisualizations [name] [(name, .numeric)]
        (List.replicate n [(name, .num q)]) = none := by
  refine ⟨histogramBuild_replicate_none q n h10, fun name => ?_⟩
  have hnum : colsWithRole [name] [(name, Role.numeric)] .numeric = [name] := by
    simp [colsWithRole]
  have hobj : objGet [(name, Value.num q)] name = Value.num q := by simp [objGet]
  have hvals : numericValues name (List.replicate n [(name, Value.num q)]) =
      List.replicate n q := by
    unfold numericValues
    rw [List.map_replicate, hobj]
    exact filterMap_numPart_replicate n q
  have hr3 : rule3 [name] (List.replicate n [(name, Value.num q)]) = none := by
    simp only [rule3]
    rw [if_pos (by simpa using h10)]
    rw [hvals]
    rw [if_pos (by simpa using h10)]
    rw [histogramBuild_replicate_none q n h10]
  simp only [selectVisualizations, hnum, hr3]

/-- C6 — witness: ten rows with the constant value 5 make the engine
throw. -/
theorem histogram_throws_witness :
    selectVisualizations ["a"] [("a", Role.numeric)]
      (List.replicate 10 [("a", Value.num 5)]) = none :=
  (histogram_throws_on_constant_column 5 10 (by decide)).2 "a"

/-! ## C9 -/

theorem foldl_min_le : ∀ (l : List Rat) (a : Rat),
    l.foldl min a ≤ a ∧ ∀ x ∈ l, l.foldl min a ≤ x := by
  intro l
  induction l with
  | nil => intro a; exact ⟨le_refl a, by simp⟩
  | cons b bs ih =>
    intro a
    obtain ⟨h1, h2⟩ := ih (min a b)
    refine ⟨le_trans h1 (min_le_left a b), ?_⟩
    intro x hx
    rcases List.mem_cons.mp hx with rfl | hx
    · exact le_trans h1 (min_le_right a x)
    · exact h2 x hx

theorem listMin_le {l : List Rat} {x : Rat} (hx : x ∈ l) : listMin l ≤ x := by
  cases l with
  | nil => simp at hx
  | cons a as =>
    rcases List.mem_cons.mp hx with rfl | hx
    · exact (foldl_min_le as x).1
    · exact (foldl_min_le as a).2 x hx

theorem jsBinIndex_valid {val mn bw : Rat} (hbw : 0 < bw) (hval : mn ≤ val) :
    ∃ i : Int, jsBinIndex val mn bw = some i ∧ 0 ≤ i ∧ i < 20 := by
  unfold jsBinIndex
  rw [if_neg (ne_of_gt hbw)]
  refine ⟨_, rfl, ?_, ?_⟩
  · have h0 : (0 : Rat) ≤ (val - mn) / bw := div_nonneg (by linarith) (le_of_lt hbw)
    have hfl : (0 : Int) ≤ ⌊(val - mn) / bw⌋ := Int.floor_nonneg.mpr h0
    exact le_min hfl (by norm_num)
  · exact lt_of_le_of_lt (min_le_right _ _) (by norm_num)

theorem bumpBin_some : ∀ (l : List HistBin) (i : Nat), i < l.length →
    ∃ l2, bumpBin l i = some l2 ∧ l2.length = l.length ∧
      (l2.map HistBin.count).sum = (l.map HistBin.count).sum + 1 := by
  intro l
  induction l with
  | nil => intro i h; simp at h
  | cons b bs ih =>
    intro i h
    cases i with
    | zero =>
      refine ⟨_, rfl, by simp, ?_⟩
      simp only [List.map_cons, List.sum_cons]
      omega
    | succ j =>
      have hj : j < bs.length := by simpa using h
      obtain ⟨bs2, h1, h2, h3⟩ := ih j hj
      refine ⟨b :: bs2, ?_, by simp [h2], ?_⟩
      · simp [bumpBin, h1]
      · simp only [List.map_cons, List.sum_cons, h3]
        omega

theorem histStep_some {mn bw val : Rat} (hbw : 0 < bw) (hval : mn ≤ val)
    (st : List HistBin) (hlen : st.length = 20) :
    ∃ st2, histStep mn bw st val = some st2 ∧ st2.length = 20 ∧
      (st2.map HistBin.count).sum = (st.map HistBin.count).sum + 1 := by
  obtain ⟨i, hidx, h0, h20⟩ := jsBinIndex_valid hbw hval
  have hlt : i.toNat < st.length := by omega
  obtain ⟨st2, h1, h2, h3⟩ := bumpBin_some st i.toNat hlt
  refine ⟨st2, ?_, by omega, h3⟩
  unfold histStep
  rw [hidx]
  simp only
  rw [if_neg (by omega)]
  exact h1

theorem histFold_some {mn bw : Rat} (hbw : 0 < bw) :
    ∀ (vals : List Rat), (∀ v ∈ vals, mn ≤ v) →
    ∀ st : List HistBin, st.length = 20 →
    ∃ st2, List.foldlM (histStep mn bw) st vals = some st2 ∧ st2.length = 20 ∧
      (st2.map HistBin.count).sum = (st.map HistBin.count).sum + vals.length := by
  intro vals
  induction vals with
  | nil => intro _ st hlen; exact ⟨st, by simp, hlen, by simp⟩
  | cons v vs ih =>
    intro hmem st hlen
    obtain ⟨st1, h1, h2, h3⟩ := histStep_some hbw (hmem v (by simp)) st hlen
    obtain ⟨st2, g1, g2, g3⟩ := ih (fun x hx => hmem x (by simp [hx])) st1 h2
    refine ⟨st2, ?_, g2, ?_⟩
    · rw [List.foldlM_cons, h1]
      simpa using g1
    · rw [g3, h3, List.length_cons]
      omega

theorem histInit_length (mn bw : Rat) : (histInit mn bw).length = 20 := by
  rw [histInit, List.length_map, List.length_range]

theorem histInit_counts (mn bw : Rat) : ((histInit mn bw).map HistBin.count).sum = 0 := by
  apply List.sum_eq_zero
  intro x hx
  simp only [histInit, List.map_map, List.mem_map] at hx
  obtain ⟨i, _, rfl⟩ := hx
  rfl

theorem histogramBuild_some {values : List Rat} (hlt : listMin values < listMax values) :
    ∃ bins, histogramBuild values = some bins ∧ bins.length = 20 ∧
      (bins.map HistBin.count).sum = values.length := by
  have hbw : 0 < (listMax values - listMin values) / 20 :=
    div_pos (by linarith) (by norm_num)
  obtain ⟨bins, h1, h2, h3⟩ :=
    histFold_some hbw values (fun v hv => listMin_le hv) _ (histInit_length _ _)
  exact ⟨bins, h1, h2, by rw [h3, histInit_counts]; omega⟩

/-- C9: whenever the first numeric column yields at least 10 finite
values with a minimum strictly below the maximum (as with 100 values
uniform in [0,100)), the histogram rule succeeds: it emits the 20-bin
bar descriptor, every value's bin index is defined, non-negative and
below 20 (the maximum clamps into the last bin), and the bin counts sum
to exactly the number of finite values. -/
theorem histogram_rule_bin_counts_sum (metricCol : String) (rest : List String)
    (data : List Row)
    (h10 : 10 ≤ (numericValues metricCol data).length)
    (hlt : listMin (numericValues metricCol data) < listMax (numericValues metricCol data)) :
    ∃ bins : List HistBin, rule3 (metricCol :: rest) data = some
        [{ type := "bar", data := bins.map binToRow, xAxis := "bin", yAxis := "count",
           description := "Distribution of " ++ metricCol ++ " (histogram)" }] ∧
      bins.length = 20 ∧
      (bins.map HistBin.count).sum = (numericValues metricCol data).length ∧
      ∀ val ∈ numericValues metricCol data,
        ∃ i : Int, jsBinIndex val (listMin (numericValues metricCol data))
            ((listMax (numericValues metricCol data) -
              listMin (numericValues metricCol data)) / 20) = some i ∧
          0 ≤ i ∧ i < 20 := by
  have hdlen : 10 ≤ data.length := by
    have h1 := List.length_filterMap_le numPart
      (data.map (fun row => objGet row metricCol))
    have h2 : (data.map (fun row => objGet row metricCol)).length = data.length :=
      List.length_map _ _
    unfold numericValues at h10
    omega
  have hbw : 0 < (listMax (numericValues metricCol data) -
      listMin (numericValues metricCol data)) / 20 :=
    div_pos (by linarith) (by norm_num)
  obtain ⟨bins, h1, h2, h3⟩ := histogramBuild_some hlt
  refine ⟨bins, ?_, h2, h3, fun val hval => jsBinIndex_valid hbw (listMin_le hval)⟩
  simp only [rule3]
  rw [if_pos hdlen, if_pos h10, h1]

/-- C9 — witness: ten rows with values 0–9 (minimum 0 < maximum 9). -/
theorem histogram_rule_witness :
    ∃ bins : List HistBin, rule3 ["a"] tenRows = some
        [{ type := "bar", data := bins.map binToRow, xAxis := "bin", yAxis := "count",
           description := "Distribution of " ++ "a" ++ " (histogram)" }] ∧
      bins.length = 20 ∧
      (bins.map HistBin.count).sum = (numericValues "a" tenRows).length ∧
      ∀ val ∈ numericValues "a" tenRows,
        ∃ i : Int, jsBinIndex val (listMin (numericValues "a" tenRows))
            ((listMax (numericValues "a" tenRows) -
              listMin (numericValues "a" tenRows)) / 20) = some i ∧
          0 ≤ i ∧ i < 20 :=
  histogram_rule_bin_counts_sum "a" [] tenRows (by decide) (by decide)

/-! ## C5 -/

/-- C5 — counterexample.  The claim reads the scatter data as the
*valid* rows capped at the first 500 such rows.  The source slices the
first 500 rows *before* filtering (`data.slice(0, 500).filter(...)`).
On 501 rows whose first row is invalid and whose remaining 500 rows are
valid, the claim predicts 500 points but the rule emits 499. -/
theorem scatter_cap_before_filter :
    ((rule6 ["a", "b"] manyRows).map (fun v => v.data.length)) = [499] ∧
    (((manyRows.filter (fun row =>
        isNum (objGet row "a") && isNum (objGet row "b"))).take 500).map
      (fun row => [("x", objGet row "a"), ("y", objGet row "b")])).length = 500 ∧
    (499 : Nat) ≠ 500 := by
  have hbad : (isNum (objGet badPair "a") && isNum (objGet badPair "b")) = false := by decide
  have hgood : (isNum (objGet goodPair "a") && isNum (objGet goodPair "b")) = true := by decide
  refine ⟨?_, ?_, by decide⟩
  · have htake : manyRows.take 500 = badPair :: List.replicate 499 goodPair := by
      show (badPair :: List.replicate 500 goodPair).take 500 = _
      rw [show (500 : Nat) = 499 + 1 from rfl, List.take_succ_cons, List.take_replicate]
      rfl
    have hfil : (manyRows.take 500).filter (fun row =>
        isNum (objGet row "a") && isNum (objGet row "b")) = List.replicate 499 goodPair := by
      rw [htake, List.filter_cons_of_neg (by simp [hbad]), List.filter_replicate_of_pos
        (by simp [hgood])]
    simp only [rule6, hfil]
    have hlen : ((List.replicate 499 goodPair).map (fun row =>
        [("x", objGet row "a"), ("y", objGet row "b")])).length = 499 := by
      rw [List.length_map, List.length_replicate]
    rw [if_pos (by rw [hlen]; norm_num)]
    simp only [List.map_cons, List.map_nil]
    rw [hlen]
  · have hfil2 : manyRows.filter (fun row =>
        isNum (objGet row "a") && isNum (objGet row "b")) = List.replicate 500 goodPair := by
      show (badPair :: List.replicate 500 goodPair).filter _ = _
      rw [List.filter_cons_of_neg (by simp [hbad]),
        List.filter_replicate_of_pos (by simp [hgood])]
    rw [hfil2, List.take_replicate, List.length_map, List.length_replicate]
    norm_num

/-- C5 (amended): the scatter descriptor's data is the valid pairs
*among the first 500 rows of the batch*, in input order, mapped to
generic `x`/`y` records.  For a batch of at most 500 rows this
coincides with the claim's filter-then-cap reading, and the output
never exceeds 500 points whatever the batch size. -/
theorem scatter_data_filtered_first500 (a b : String) (rest : List String) (data : List Row)
    (h : data.length ≤ 500) :
    (∀ viz ∈ rule6 (a :: b :: rest) data,
        viz.data = (data.filter (fun row =>
          isNum (objGet row a) && isNum (objGet row b))).map
          (fun row => [("x", objGet row a), ("y", objGet row b)])) ∧
    ∀ (d : List Row), ∀ viz2 ∈ rule6 (a :: b :: rest) d, viz2.data.length ≤ 500 := by
  constructor
  · intro viz hviz
    simp only [rule6] at hviz
    rw [List.take_of_length_le h] at hviz
    split at hviz
    · simp only [List.mem_singleton] at hviz
      subst hviz
      rfl
    · simp at hviz
  · intro d viz2 hviz
    simp only [rule6] at hviz
    split at hviz
    · simp only [List.mem_singleton] at hviz
      subst hviz
      simp only [List.length_map]
      exact le_trans (List.length_filter_le _ _) (List.length_take_le 500 d)
    · simp at hviz

/-- C5 — witness: the amended theorem applied to a one-row batch with a
valid pair, whose scatter descriptor carries exactly that pair under
the generic keys. -/
theorem scatter_data_filtered_witness :
    ({ type := "scatter", data := [[("x", Value.num 1), ("y", Value.num 1)]], xAxis := "a",
       yAxis := "b", description := "b vs a" } : Viz).data =
      ([goodPair].filter (fun row => isNum (objGet row "a") && isNum (objGet row "b"))).map
        (fun row => [("x", objGet row "a"), ("y", objGet row "b")]) :=
  (scatter_data_filtered_first500 "a" "b" [] [goodPair] (by decide)).1 _ (by decide)

/-! ## C3 -/

/-- The two-part invariant of the rule-2 grouping fold: each
accumulated group's `count` is the number of *all* processed rows of
its key, its `sum` the sum of the numeric metric cells among them, and
every processed row already has its group. -/
theorem groupStep_inv (catCol metricCol : String) (processed : List Row) (acc : List GroupAcc)
    (row : Row)
    (hInv : ∀ g ∈ acc, 0 < g.count ∧
      g.count = (processed.filter (fun r => groupKey catCol r == g.key)).length ∧
      g.sum = ((processed.filter (fun r => groupKey catCol r == g.key)).filterMap
        (fun r => numPart (objGet r metricCol))).sum)
    (hCov : ∀ r ∈ processed, ∃ g ∈ acc, g.key = groupKey catCol r) :
    (∀ g2 ∈ groupStep catCol metricCol acc row, 0 < g2.count ∧
      g2.count = ((processed ++ [row]).filter (fun r => groupKey catCol r == g2.key)).length ∧
      g2.sum = (((processed ++ [row]).filter (fun r => groupKey catCol r == g2.key)).filterMap
        (fun r => numPart (objGet r metricCol))).sum) ∧
    (∀ r ∈ processed ++ [row], ∃ g2 ∈ groupStep catCol metricCol acc row,
      g2.key = groupKey catCol r) := by
  have hfilrow : ∀ k : String, k = groupKey catCol row →
      (processed ++ [row]).filter (fun r => groupKey catCol r == k) =
        processed.filter (fun r => groupKey catCol r == k) ++ [row] := by
    intro k hk
    rw [List.filter_append]
    congr 1
    simp [hk]
  have hfilrow' : ∀ k : String, k ≠ groupKey catCol row →
      (processed ++ [row]).filter (fun r => groupKey catCol r == k) =
        processed.filter (fun r => groupKey catCol r == k) := by
    intro k hk
    rw [List.filter_append]
    have : (groupKey catCol row == k) = false := beq_eq_false_iff_ne.mpr (Ne.symm hk)
    simp [this]
  have hdelta : ((List.filterMap (fun r => numPart (objGet r metricCol)) [row])).sum =
      (if isNum (objGet row metricCol) then ratOf (objGet row metricCol) else 0) := by
    cases hv : objGet row metricCol <;> simp [numPart, isNum, ratOf, hv]
  constructor
  · intro g2 hg2
    simp only [groupStep] at hg2
    obtain ⟨g1, hg1, hup⟩ := List.mem_map.mp hg2
    by_cases hk : g1.key == groupKey catCol row
    · have hkey : g1.key = groupKey catCol row := by simpa using hk
      rw [if_pos hk] at hup
      subst hup
      simp only
      have hg1acc : g1 ∈ acc ∨ g1 = ⟨groupKey catCol row, 0, 0⟩ := by
        by_cases hany : acc.any (fun g => g.key == groupKey catCol row) = true
        · rw [if_pos hany] at hg1; exact Or.inl hg1
        · rw [if_neg hany] at hg1
          rcases List.mem_append.mp hg1 with h | h
          · exact Or.inl h
          · exact Or.inr (by simpa using h)
      rcases hg1acc with hg1acc | rfl
      · obtain ⟨hpos, hcnt, hsum⟩ := hInv g1 hg1acc
        refine ⟨Nat.succ_pos _, ?_, ?_⟩
        · rw [hfilrow g1.key hkey, List.length_append, hcnt]
          rfl
        · rw [hfilrow g1.key hkey, List.filterMap_append, List.sum_append, hsum, hdelta]
          by_cases hnum : isNum (objGet row metricCol) = true
          · rw [if_pos hnum, if_pos hnum]
          · rw [if_neg hnum, if_neg hnum, add_zero]
      · -- the freshly created group: no processed row has this key
        have hany : acc.any (fun g => g.key == groupKey catCol row) = false := by
          by_cases hany : acc.any (fun g => g.key == groupKey catCol row) = true
          · rw [if_pos hany] at hg1
            exact absurd (hInv _ hg1).1 (by simp)
          · simpa using hany
        have hnone : processed.filter
            (fun r => groupKey catCol r == groupKey catCol row) = [] := by
          rw [List.filter_eq_nil_iff]
          intro r hr hkey2
          obtain ⟨g, hgacc, hgkey⟩ := hCov r hr
          have heq : groupKey catCol r = groupKey catCol row := by simpa using hkey2
          have hbeq : (g.key == groupKey catCol row) = true := by rw [hgkey, heq]; simp
          have hcontra : (acc.any fun g0 => g0.key == groupKey catCol row) = true :=
            List.any_eq_true.mpr ⟨g, hgacc, hbeq⟩
          simp [hany] at hcontra
        refine ⟨Nat.succ_pos _, ?_, ?_⟩
        · dsimp only
          rw [hfilrow _ rfl, hnone, List.nil_append]
          rfl
        · dsimp only
          rw [hfilrow _ rfl, hnone, List.nil_append, hdelta]
          by_cases hnum : isNum (objGet row metricCol) = true
          · rw [if_pos hnum, if_pos hnum, zero_add]
          · rw [if_neg hnum, if_neg hnum]
    · have hkey : g1.key ≠ groupKey catCol row := by simpa using hk
      rw [if_neg hk] at hup
      subst hup
      have hg1acc : g1 ∈ acc := by
        by_cases hany : acc.any (fun g => g.key == groupKey catCol row) = true
        · rw [if_pos hany] at hg1; exact hg1
        · rw [if_neg hany] at hg1
          rcases List.mem_append.mp hg1 with h | h
          · exact h
          · exact absurd (by simpa using h : g1 = ⟨groupKey catCol row, 0, 0⟩)
              (fun hh => hkey (by rw [hh]))
      rw [hfilrow' g1.key hkey]
      exact hInv g1 hg1acc
  · intro r hr
    rcases List.mem_append.mp hr with hr | hr
    · obtain ⟨g, hgacc, hgkey⟩ := hCov r hr
      simp only [groupStep]
      by_cases hany : acc.any (fun g => g.key == groupKey catCol row) = true
      · rw [if_pos hany]
        refine ⟨_, List.mem_map_of_mem _ hgacc, ?_⟩
        by_cases hk : (g.key == groupKey catCol row) = true
        · have heq : groupKey catCol r = groupKey catCol row := by
            rw [← hgkey]; simpa using hk
          simp [hk, hgkey, heq]
        · have hne : ¬(groupKey catCol r = groupKey catCol row) := by
            rw [← hgkey]; simpa using hk
          simp [hk, hgkey, hne]
      · rw [if_neg hany]
        refine ⟨_, List.mem_map_of_mem _ (List.mem_append_left _ hgacc), ?_⟩
        by_cases hk : (g.key == groupKey catCol row) = true
        · have heq : groupKey catCol r = groupKey catCol row := by
            rw [← hgkey]; simpa using hk
          simp [hk, hgkey, heq]
        · have hne : ¬(groupKey catCol r = groupKey catCol row) := by
            rw [← hgkey]; simpa using hk
          simp [hk, hgkey, hne]
    · have hrow : r = row := by simpa using hr
      rw [hrow]
      simp only [groupStep]
      by_cases hany : acc.any (fun g => g.key == groupKey catCol row) = true
      · obtain ⟨g, hgacc, hgk⟩ := List.any_eq_true.mp hany
        rw [if_pos hany]
        refine ⟨_, List.mem_map_of_mem _ hgacc, ?_⟩
        simp [hgk]
        simpa using hgk
      · rw [if_neg hany]
        refine ⟨_, List.mem_map_of_mem _
          (List.mem_append_right _ (List.mem_singleton.mpr rfl)), ?_⟩
        simp

theorem grouped_inv (catCol metricCol : String) :
    ∀ (data processed : List Row) (acc : List GroupAcc),
      (∀ g ∈ acc, 0 < g.count ∧
        g.count = (processed.filter (fun r => groupKey catCol r == g.key)).length ∧
        g.sum = ((processed.filter (fun r => groupKey catCol r == g.key)).filterMap
          (fun r => numPart (objGet r metricCol))).sum) →
      (∀ r ∈ processed, ∃ g ∈ acc, g.key = groupKey catCol r) →
      ∀ g ∈ data.foldl (groupStep catCol metricCol) acc,
        0 < g.count ∧
        g.count = ((processed ++ data).filter (fun r => groupKey catCol r == g.key)).length ∧
        g.sum = (((processed ++ data).filter (fun r => groupKey catCol r == g.key)).filterMap
          (fun r => numPart (objGet r metricCol))).sum := by
  intro data
  induction data with
  | nil =>
    intro processed acc hInv _ g hg
    simp only [List.foldl_nil] at hg
    simpa using hInv g hg
  | cons row rest ih =>
    intro processed acc hInv hCov g hg
    simp only [List.foldl_cons] at hg
    obtain ⟨hInv', hCov'⟩ := groupStep_inv catCol metricCol processed acc row hInv hCov
    have hmain := ih (processed ++ [row]) (groupStep catCol metricCol acc row) hInv' hCov' g hg
    rw [List.append_assoc, List.singleton_append] at hmain
    exact hmain

/-- Each emitted rule-2 group satisfies the count/sum characterization. -/
theorem rule2Grouped_spec (catCol metricCol : String) (data : List Row) :
    ∀ g ∈ rule2Grouped catCol metricCol data,
      0 < g.count ∧
      g.count = (data.filter (fun r => groupKey catCol r == g.key)).length ∧
      g.sum = ((data.filter (fun r => groupKey catCol r == g.key)).filterMap
        (fun r => numPart (objGet r metricCol))).sum := by
  intro g hg
  have := grouped_inv catCol metricCol data [] [] (by simp) (by simp) g hg
  simpa using this

/-- C3 — counterexample.  The claim says a group with zero contributing
numeric values is excluded from the descriptor.  A batch whose single
row has category `A` and a null metric produces the group `A` with
`count = 1` and `sum = 0` — zero numeric contributions — and the
emitted bar descriptor still contains one record (the group was not
excluded; its y-value is `0/1 = 0`). -/
theorem zero_numeric_group_included :
    rule2Grouped "c" "v" [[("c", Value.str "A"), ("v", Value.null)]] =
      [{ key := "A", count := 1, sum := 0 }] ∧
    (rule2 ["c"] ["v"] [[("c", Value.str "A"), ("v", Value.null)]]).map
      (fun viz => viz.data.length) = [1] :=
  ⟨rfl, rfl⟩

/-- C3 (amended): each record of the rule-2 bar descriptor comes from a
group whose `count` is the number of *all* rows of that group (numeric
or not, hence ≥ 1 — no division by zero can occur), whose `sum` adds
only the numeric metric cells, and whose y-value is `sum / count`; in
particular a group with zero numeric contributions is included with
y-value `0`, not excluded, and the divisor is the total row count of
the group, not the count of numeric contributions. -/
theorem rule2_mean_divides_by_group_row_count (catCol metricCol : String)
    (cs ns : List String) (data : List Row) (viz : Viz) (rec : Row)
    (hm : metricCol ≠ "_count")
    (hviz : viz ∈ rule2 (catCol :: cs) (metricCol :: ns) data)
    (hrec : rec ∈ viz.data) :
    ∃ g : GroupAcc, g ∈ rule2Grouped catCol metricCol data ∧
      rec = aggRecord catCol metricCol g ∧
      0 < g.count ∧
      g.count = (data.filter (fun r => groupKey catCol r == g.key)).length ∧
      g.sum = ((data.filter (fun r => groupKey catCol r == g.key)).filterMap
        (fun r => numPart (objGet r metricCol))).sum ∧
      objGet rec metricCol = .num (g.sum / (g.count : Rat)) := by
  simp only [rule2, List.mem_singleton] at hviz
  subst hviz
  simp only at hrec
  have hrec2 : rec ∈ jsSortBy
      (fun a b => ratOf (objGet b metricCol) - ratOf (objGet a metricCol))
      ((rule2Grouped catCol metricCol data).map (aggRecord catCol metricCol)) :=
    List.take_subset _ _ hrec
  rw [mem_jsSortBy] at hrec2
  obtain ⟨g, hg, rfl⟩ := List.mem_map.mp hrec2
  obtain ⟨h1, h2, h3⟩ := rule2Grouped_spec catCol metricCol data g hg
  refine ⟨g, hg, rfl, h1, h2, h3, ?_⟩
  unfold aggRecord
  rw [objGet_objSet_ne _ _ _ _ hm, objGet_objSet_self]

/-- C3 — witness: the amended theorem applied to the one-row batch with
a null metric; the group's y-value record is its `sum/count = 0/1`. -/
theorem rule2_mean_witness :
    ∃ g : GroupAcc, g ∈ rule2Grouped "c" "v" [[("c", Value.str "A"), ("v", Value.null)]] ∧
      aggRecord "c" "v" ⟨"A", 1, 0⟩ = aggRecord "c" "v" g ∧
      0 < g.count ∧
      g.count = ([[("c", Value.str "A"), ("v", Value.null)]].filter
        (fun r => groupKey "c" r == g.key)).length ∧
      g.sum = (([[("c", Value.str "A"), ("v", Value.null)]].filter
        (fun r => groupKey "c" r == g.key)).filterMap
        (fun r => numPart (objGet r "v"))).sum ∧
      objGet (aggRecord "c" "v" ⟨"A", 1, 0⟩) "v" = .num (g.sum / (g.count : Rat)) :=
  rule2_mean_divides_by_group_row_count "c" "v" [] [] _
    ((rule2 ["c"] ["v"] [[("c", Value.str "A"), ("v", Value.null)]]).headD
      ⟨"", [], "", "", ""⟩)
    (aggRecord "c" "v" ⟨"A", 1, 0⟩)
    (by decide)
    (by simp only [rule2, List.headD_cons, List.mem_singleton])
    (List.mem_singleton.mpr rfl)

/-! ## C4 -/

theorem aggRecord_keys (c m : String) (g : GroupAcc) :
    hasKey (aggRecord c m g) c = true ∧ hasKey (aggRecord c m g) m = true := by
  constructor
  · unfold aggRecord
    apply hasKey_objSet_of
    apply hasKey_objSet_of
    apply hasKey_objSet_of
    apply hasKey_objSet_of
    exact hasKey_objSet_self [] c _
  · unfold aggRecord
    apply hasKey_objSet_of
    exact hasKey_objSet_self _ m _

theorem rule1_keys {temporal numeric : List String} {data : List Row} {viz : Viz} {rec : Row}
    (hT : ∀ t ∈ temporal, ∀ row ∈ data, hasKey row t = true)
    (hN : ∀ m ∈ numeric, ∀ row ∈ data, hasKey row m = true)
    (hviz : viz ∈ rule1 temporal numeric data) (hrec : rec ∈ viz.data) :
    viz.type = "line" ∧ hasKey rec viz.xAxis = true ∧ hasKey rec viz.yAxis = true := by
  cases temporal with
  | nil => simp [rule1] at hviz
  | cons t ts =>
    cases numeric with
    | nil => simp [rule1] at hviz
    | cons m ms =>
      simp only [rule1, List.mem_singleton] at hviz
      subst hviz
      simp only at hrec ⊢
      have hmem : rec ∈ data := by
        have h1 := List.take_subset 1000 _ hrec
        rwa [mem_jsSortBy] at h1
      exact ⟨by trivial, hT t (by simp) rec hmem, hN m (by simp) rec hmem⟩

theorem rule2_keys {categorical numeric : List String} {data : List Row} {viz : Viz} {rec : Row}
    (hviz : viz ∈ rule2 categorical numeric data) (hrec : rec ∈ viz.data) :
    viz.type = "bar" ∧ hasKey rec viz.xAxis = true ∧ hasKey rec viz.yAxis = true := by
  cases categorical with
  | nil => simp [rule2] at hviz
  | cons c cs =>
    cases numeric with
    | nil => simp [rule2] at hviz
    | cons m ms =>
      simp only [rule2, List.mem_singleton] at hviz
      subst hviz
      simp only at hrec ⊢
      have h1 := List.take_subset 20 _ hrec
      rw [mem_jsSortBy] at h1
      obtain ⟨g, _, rfl⟩ := List.mem_map.mp h1
      exact ⟨by trivial, (aggRecord_keys c m g).1, (aggRecord_keys c m g).2⟩

theorem rule3_keys {numeric : List String} {data : List Row} {vis3 : List Viz} {viz : Viz}
    {rec : Row} (h3 : rule3 numeric data = some vis3) (hviz : viz ∈ vis3)
    (hrec : rec ∈ viz.data) :
    viz.type = "bar" ∧ hasKey rec viz.xAxis = true ∧ hasKey rec viz.yAxis = true := by
  cases numeric with
  | nil =>
    simp only [rule3, Option.some.injEq] at h3
    subst h3
    simp at hviz
  | cons m ms =>
    simp only [rule3] at h3
    split at h3
    · split at h3
      · cases hb : histogramBuild (numericValues m data) with
        | none => rw [hb] at h3; simp at h3
        | some bins =>
          rw [hb] at h3
          simp only [Option.some.injEq] at h3
          subst h3
          simp only [List.mem_singleton] at hviz
          subst hviz
          simp only at hrec ⊢
          obtain ⟨b, _, rfl⟩ := List.mem_map.mp hrec
          exact ⟨by trivial, by simp [binToRow, hasKey], by simp [binToRow, hasKey]⟩
      · simp only [Option.some.injEq] at h3; subst h3; simp at hviz
    · simp only [Option.some.injEq] at h3; subst h3; simp at hviz

theorem rule4_keys {numeric identifiers : List String} {data : List Row} {viz : Viz} {rec : Row}
    (hviz : viz ∈ rule4 numeric identifiers data) (hrec : rec ∈ viz.data) :
    viz.type = "bar" ∧ hasKey rec viz.xAxis = true ∧ hasKey rec viz.yAxis = true := by
  cases numeric with
  | nil => simp [rule4] at hviz
  | cons m ms =>
    cases identifiers with
    | nil => simp [rule4] at hviz
    | cons l ls =>
      simp only [rule4] at hviz
      split at hviz
      · simp only [List.mem_singleton] at hviz
        subst hviz
        simp only at hrec ⊢
        have h1 := List.take_subset 20 _ hrec
        rw [mem_jsSortBy] at h1
        obtain ⟨row, _, rfl⟩ := List.mem_map.mp h1
        refine ⟨by trivial, ?_, hasKey_objSet_self _ m _⟩
        apply hasKey_objSet_of
        simp [hasKey]
      · simp at hviz

theorem rule5_keys {categorical numeric : List String} {data : List Row} {viz : Viz} {rec : Row}
    (hviz : viz ∈ rule5 categorical numeric data) (hrec : rec ∈ viz.data) :
    viz.type = "bar" ∧ hasKey rec viz.xAxis = true ∧ hasKey rec viz.yAxis = true := by
  cases categorical with
  | nil => simp [rule5] at hviz
  | cons c cs =>
    cases numeric with
    | cons m ms => simp [rule5] at hviz
    | nil =>
      simp only [rule5] at hviz
      split at hviz
      · simp only [List.mem_singleton] at hviz
        subst hviz
        simp only at hrec ⊢
        have h1 := List.take_subset 30 _ hrec
        rw [mem_jsSortBy] at h1
        obtain ⟨g, _, rfl⟩ := List.mem_map.mp h1
        refine ⟨by trivial, ?_, hasKey_objSet_self _ "count" _⟩
        apply hasKey_objSet_of
        exact hasKey_objSet_self [] c _
      · simp at hviz

theorem rule6_keys {numeric : List String} {data : List Row} {viz : Viz} {rec : Row}
    (hviz : viz ∈ rule6 numeric data) (hrec : rec ∈ viz.data) :
    viz.type = "scatter" ∧ hasKey rec "x" = true ∧ hasKey rec "y" = true := by
  cases numeric with
  | nil => simp [rule6] at hviz
  | cons x xs =>
    cases xs with
    | nil => simp [rule6] at hviz
    | cons y ys =>
      simp only [rule6] at hviz
      split at hviz
      · simp only [List.mem_singleton] at hviz
        subst hviz
        simp only at hrec ⊢
        obtain ⟨row, _, rfl⟩ := List.mem_map.mp hrec
        exact ⟨by trivial, by simp [hasKey], by simp [hasKey]⟩
      · simp at hviz

/-- C4 — counterexample.  The claim says `xAxisKey`/`yAxisKey` always
index into the descriptor's `data` records.  For the scatter rule the
source sets `xAxis: xCol, yAxis: yCol` (the original column names) but
reshapes the records to the generic keys `x`/`y`, so neither axis key
is a key of any data record. -/
theorem scatter_axis_keys_not_in_data :
    selectVisualizations ["a", "b"] [("a", .numeric), ("b", .numeric)]
        [[("a", .num 1), ("b", .num 2)]] =
      some (some [{ type := "scatter", data := [[("x", Value.num 1), ("y", Value.num 2)]],
                    xAxis := "a", yAxis := "b", description := "b vs a" }]) ∧
    hasKey [("x", Value.num 1), ("y", Value.num 2)] "a" = false ∧
    hasKey [("x", Value.num 1), ("y", Value.num 2)] "b" = false :=
  ⟨rfl, rfl, rfl⟩

/-- C4 (amended): on a batch whose rows all carry every column key,
every non-scatter descriptor's `xAxisKey`/`yAxisKey` index into each of
its data records; the scatter descriptor's records are instead indexed
by the synthetic keys `x` and `y`, while its `xAxisKey`/`yAxisKey` hold
the original column names. -/
theorem axis_keys_index_data_except_scatter (columns : List String)
    (cls : List (String × Role)) (data : List Row) (vs : List Viz)
    (huni : ∀ row ∈ data, ∀ c ∈ columns, hasKey row c = true)
    (hres : selectVisualizations columns cls data = some (some vs)) :
    ∀ viz ∈ vs, ∀ rec ∈ viz.data,
      (viz.type = "scatter" → hasKey rec "x" = true ∧ hasKey rec "y" = true) ∧
      (viz.type ≠ "scatter" → hasKey rec viz.xAxis = true ∧ hasKey rec viz.yAxis = true) := by
  intro viz hviz rec hrec
  simp only [selectVisualizations] at hres
  cases h3 : rule3 (colsWithRole columns cls .numeric) data with
  | none => rw [h3] at hres; simp at hres
  | some vis3 =>
    rw [h3] at hres
    simp only at hres
    split at hres
    · simp only [Option.some.injEq] at hres
      subst hres
      have hcols : ∀ role : Role, ∀ c ∈ colsWithRole columns cls role,
          ∀ row ∈ data, hasKey row c = true := by
        intro role c hc row hrow
        exact huni row hrow c (List.filter_subset' columns hc)
      have handle : viz.type ≠ "scatter" →
          hasKey rec viz.xAxis = true ∧ hasKey rec viz.yAxis = true →
          (viz.type = "scatter" → hasKey rec "x" = true ∧ hasKey rec "y" = true) ∧
          (viz.type ≠ "scatter" → hasKey rec viz.xAxis = true ∧ hasKey rec viz.yAxis = true) :=
        fun hne hk => ⟨fun hsc => absurd hsc hne, fun _ => hk⟩
      rcases List.mem_append.mp hviz with h5' | h6
      case inr =>
        obtain ⟨hty, hx, hy⟩ := rule6_keys h6 hrec
        exact ⟨fun _ => ⟨hx, hy⟩, fun hne => absurd hty hne⟩
      rcases List.mem_append.mp h5' with h4' | h5
      case inr =>
        obtain ⟨hty, hx, hy⟩ := rule5_keys h5 hrec
        exact handle (by rw [hty]; decide) ⟨hx, hy⟩
      rcases List.mem_append.mp h4' with h3' | h4
      case inr =>
        obtain ⟨hty, hx, hy⟩ := rule4_keys h4 hrec
        exact handle (by rw [hty]; decide) ⟨hx, hy⟩
      rcases List.mem_append.mp h3' with h2' | hh3
      case inr =>
        obtain ⟨hty, hx, hy⟩ := rule3_keys h3 hh3 hrec
        exact handle (by rw [hty]; decide) ⟨hx, hy⟩
      rcases List.mem_append.mp h2' with h1 | h2
      case inr =>
        obtain ⟨hty, hx, hy⟩ := rule2_keys h2 hrec
        exact handle (by rw [hty]; decide) ⟨hx, hy⟩
      obtain ⟨hty, hx, hy⟩ := rule1_keys (hcols .temporal) (hcols .numeric) h1 hrec
      exact handle (by rw [hty]; decide) ⟨hx, hy⟩
    · simp at hres

/-- C4 — witness: the amended theorem at a one-row two-numeric-column
batch, whose scatter descriptor's records carry the generic keys. -/
theorem axis_keys_witness :
    ((("scatter" : String) = "scatter" →
        hasKey [("x", Value.num 1), ("y", Value.num 2)] "x" = true ∧
        hasKey [("x", Value.num 1), ("y", Value.num 2)] "y" = true) ∧
     (("scatter" : String) ≠ "scatter" →
        hasKey [("x", Value.num 1), ("y", Value.num 2)] "a" = true ∧
        hasKey [("x", Value.num 1), ("y", Value.num 2)] "b" = true)) :=
  axis_keys_index_data_except_scatter ["a", "b"] [("a", .numeric), ("b", .numeric)]
    [[("a", .num 1), ("b", .num 2)]]
    [{ type := "scatter", data := [[("x", Value.num 1), ("y", Value.num 2)]], xAxis := "a",
       yAxis := "b", description := "b vs a" }]
    (by decide) rfl _ (List.mem_singleton.mpr rfl) _ (List.mem_singleton.mpr rfl)

/-! ## C10 -/

theorem length_writeF (st : Store) (r : Nat) (k : String) (v : Value) :
    (writeF st r k v).length = st.length := by
  simp [writeF]

theorem getD_writeF_low {st : Store} {r i : Nat} (k : String) (v : Value) (h : i ≠ r) :
    (writeF st r k v).getD i [] = st.getD i [] := by
  simp [writeF, List.getD_eq_getElem?_getD, List.getElem?_set_ne (Ne.symm h)]

theorem getD_append_low {st ext : Store} {i : Nat} (h : i < st.length) :
    (st ++ ext).getD i [] = st.getD i [] := by
  simp [List.getD_eq_getElem?_getD, List.getElem?_append, h]

theorem getD_mem_of_lt {l : List Nat} {i : Nat} (h : i < l.length) (d : Nat) :
    l.getD i d ∈ l := by
  rw [List.getD_eq_getElem?_getD, List.getElem?_eq_getElem h]
  exact List.getElem_mem h

theorem bumpGroupH_frame (metricCol : String) (rowRef gref : Nat) (st : Store)
    {n : Nat} (hr : n ≤ gref) :
    (bumpGroupH metricCol rowRef gref st).length = st.length ∧
    ∀ i, i < n → (bumpGroupH metricCol rowRef gref st).getD i [] = st.getD i [] := by
  simp only [bumpGroupH]
  constructor
  · split
    · rw [length_writeF, length_writeF]
    · rw [length_writeF]
  · intro i hi
    split
    · rw [getD_writeF_low _ _ (by omega), getD_writeF_low _ _ (by omega)]
    · rw [getD_writeF_low _ _ (by omega)]

theorem groupStepH_frame (catCol metricCol : String) (n : Nat)
    (st : Store) (grefs : List (String × Nat)) (rowRef : Nat)
    (hn : n ≤ st.length) (hg : ∀ p ∈ grefs, n ≤ p.2 ∧ p.2 < st.length) :
    n ≤ (groupStepH catCol metricCol (st, grefs) rowRef).1.length ∧
    (∀ p ∈ (groupStepH catCol metricCol (st, grefs) rowRef).2,
      n ≤ p.2 ∧ p.2 < (groupStepH catCol metricCol (st, grefs) rowRef).1.length) ∧
    (∀ i, i < n →
      (groupStepH catCol metricCol (st, grefs) rowRef).1.getD i [] = st.getD i []) := by
  simp only [groupStepH]
  cases hfind : grefs.find? (fun p => p.1 == groupKey catCol (readCell st rowRef)) with
  | some p =>
    obtain ⟨hp1, hp2⟩ := hg p (List.mem_of_find?_eq_some hfind)
    obtain ⟨hlen, hlow⟩ := bumpGroupH_frame metricCol rowRef p.2 st hp1
    refine ⟨by rw [hlen]; exact hn, ?_, hlow⟩
    intro q hq
    obtain ⟨hq1, hq2⟩ := hg q hq
    rw [hlen]
    exact ⟨hq1, hq2⟩
  | none =>
    simp only [allocCell]
    obtain ⟨hlen, hlow⟩ := bumpGroupH_frame metricCol rowRef st.length
      (st ++ [objSet (objSet (objSet [] catCol
        (.str (groupKey catCol (readCell st rowRef)))) "count" (.num 0)) "sum" (.num 0)]) hn
    have hlen2 : (st ++ [objSet (objSet (objSet [] catCol
        (.str (groupKey catCol (readCell st rowRef)))) "count" (.num 0)) "sum"
        (.num 0)]).length = st.length + 1 := by
      rw [List.length_append]
      rfl
    refine ⟨by rw [hlen, hlen2]; omega, ?_, ?_⟩
    · intro q hq
      rcases List.mem_append.mp hq with hq | hq
      · obtain ⟨hq1, hq2⟩ := hg q hq
        rw [hlen, hlen2]
        exact ⟨hq1, by omega⟩
      · have hq2 : q = (groupKey catCol (readCell st rowRef), st.length) := by simpa using hq
        rw [hq2]
        dsimp only
        rw [hlen, hlen2]
        exact ⟨hn, by omega⟩
    · intro i hi
      rw [hlow i hi, getD_append_low (by omega)]

theorem foldl_groupStepH_frame (catCol metricCol : String) (n : Nat) :
    ∀ (refs : List Nat) (st : Store) (grefs : List (String × Nat)),
      n ≤ st.length → (∀ p ∈ grefs, n ≤ p.2 ∧ p.2 < st.length) →
      n ≤ (refs.foldl (groupStepH catCol metricCol) (st, grefs)).1.length ∧
      (∀ i, i < n →
        (refs.foldl (groupStepH catCol metricCol) (st, grefs)).1.getD i [] = st.getD i []) := by
  intro refs
  induction refs with
  | nil => intro st grefs hn _; exact ⟨hn, fun _ _ => rfl⟩
  | cons r rs ih =>
    intro st grefs hn hg
    simp only [List.foldl_cons]
    obtain ⟨h1, h2, h3⟩ := groupStepH_frame catCol metricCol n st grefs r hn hg
    obtain ⟨g1, g2⟩ := ih (groupStepH catCol metricCol (st, grefs) r).1
      (groupStepH catCol metricCol (st, grefs) r).2 h1 h2
    exact ⟨g1, fun i hi => (g2 i hi).trans (h3 i hi)⟩

theorem rule2H_frame (categorical numeric : List String) (st : Store) (dataRefs : List Nat)
    (n : Nat) (hn : n ≤ st.length) :
    n ≤ (rule2H categorical numeric st dataRefs).1.length ∧
    ∀ i, i < n → (rule2H categorical numeric st dataRefs).1.getD i [] = st.getD i [] := by
  cases categorical with
  | nil => exact ⟨hn, fun _ _ => rfl⟩
  | cons c cs =>
    cases numeric with
    | nil => exact ⟨hn, fun _ _ => rfl⟩
    | cons m ms =>
      simp only [rule2H]
      exact foldl_groupStepH_frame c m n dataRefs st [] hn (by simp)

theorem alloc_loop_frame (mk : Nat → Row) :
    ∀ (l : List Nat) (st : Store) (refs : List Nat),
      (∀ r ∈ refs, r < st.length) →
      (st.length ≤ (l.foldl (fun (acc : Store × List Nat) (i : Nat) =>
          ((acc.1 ++ [mk i], acc.2 ++ [acc.1.length]) : Store × List Nat)) (st, refs)).1.length) ∧
      (∀ j, j < st.length → (l.foldl (fun (acc : Store × List Nat) (i : Nat) =>
          ((acc.1 ++ [mk i], acc.2 ++ [acc.1.length]) : Store × List Nat))
            (st, refs)).1.getD j [] = st.getD j []) ∧
      (∀ r ∈ (l.foldl (fun (acc : Store × List Nat) (i : Nat) =>
          ((acc.1 ++ [mk i], acc.2 ++ [acc.1.length]) : Store × List Nat)) (st, refs)).2,
        r < (l.foldl (fun (acc : Store × List Nat) (i : Nat) =>
          ((acc.1 ++ [mk i], acc.2 ++ [acc.1.length]) : Store × List Nat)) (st, refs)).1.length ∧
        (r ∈ refs ∨ st.length ≤ r)) := by
  intro l
  induction l with
  | nil =>
    intro st refs hrefs
    exact ⟨le_refl _, fun _ _ => rfl, fun r hr => ⟨hrefs r hr, Or.inl hr⟩⟩
  | cons a as ih =>
    intro st refs hrefs
    simp only [List.foldl_cons]
    have hrefs' : ∀ r ∈ refs ++ [st.length], r < (st ++ [mk a]).length := by
      intro r hr
      simp only [List.length_append, List.length_cons, List.length_nil]
      rcases List.mem_append.mp hr with hr | hr
      · have := hrefs r hr; omega
      · have hr2 : r = st.length := by simpa using hr
        omega
    obtain ⟨g1, g2, g3⟩ := ih (st ++ [mk a]) (refs ++ [st.length]) hrefs'
    have hst : st.length < (st ++ [mk a]).length := by
      rw [List.length_append]; simp
    refine ⟨by omega, ?_, ?_⟩
    · intro j hj
      rw [g2 j (by omega), getD_append_low hj]
    · intro r hr
      obtain ⟨hr1, hr2⟩ := g3 r hr
      refine ⟨hr1, ?_⟩
      rcases hr2 with hr2 | hr2
      · rcases List.mem_append.mp hr2 with hr2 | hr2
        · exact Or.inl hr2
        · have : r = st.length := by simpa using hr2
          exact Or.inr (by omega)
      · rw [List.length_append] at hr2
        exact Or.inr (by omega)

theorem allocBins_frame (st : Store) (mn bw : Rat) :
    st.length ≤ (allocBins st mn bw).1.length ∧
    (∀ j, j < st.length → (allocBins st mn bw).1.getD j [] = st.getD j []) ∧
    (∀ r ∈ (allocBins st mn bw).2,
      r < (allocBins st mn bw).1.length ∧ st.length ≤ r) := by
  obtain ⟨h1, h2, h3⟩ := alloc_loop_frame
    (fun i => [("bin", .str (toFixed1 (mn + (i : Rat) * bw) ++ "-" ++
        toFixed1 (mn + ((i : Rat) + 1) * bw))),
      ("binStart", .num (mn + (i : Rat) * bw)), ("count", .num 0)])
    (List.range 20) st [] (by simp)
  exact ⟨h1, h2, fun r hr => ⟨(h3 r hr).1, ((h3 r hr).2).resolve_left (by simp)⟩⟩

theorem histFoldH_frame (binRefs : List Nat) (mn bw : Rat) (n : Nat)
    (hrefs : ∀ r ∈ binRefs, n ≤ r) :
    ∀ (vals : List Rat) (st : Store), n ≤ st.length →
      n ≤ (histFoldH binRefs mn bw st vals).1.length ∧
      ∀ i, i < n → (histFoldH binRefs mn bw st vals).1.getD i [] = st.getD i [] := by
  intro vals
  induction vals with
  | nil => intro st hn; exact ⟨hn, fun _ _ => rfl⟩
  | cons v vs ih =>
    intro st hn
    simp only [histFoldH]
    cases hidx : jsBinIndex v mn bw with
    | none => exact ⟨hn, fun _ _ => rfl⟩
    | some i =>
      dsimp only
      split
      · rename_i hcond
        have hmem : binRefs.getD i.toNat 0 ∈ binRefs := getD_mem_of_lt hcond.2 0
        have hge : n ≤ binRefs.getD i.toNat 0 := hrefs _ hmem
        obtain ⟨g1, g2⟩ := ih (writeF st (binRefs.getD i.toNat 0) "count"
          (.num (ratOf (readF st (binRefs.getD i.toNat 0) "count") + 1)))
          (by rw [length_writeF]; exact hn)
        exact ⟨g1, fun j hj => (g2 j hj).trans (getD_writeF_low _ _ (by omega))⟩
      · exact ⟨hn, fun _ _ => rfl⟩

theorem rule3H_frame (numeric : List String) (st : Store) (dataRefs : List Nat)
    (n : Nat) (hn : n ≤ st.length) :
    n ≤ (rule3H numeric st dataRefs).1.length ∧
    ∀ i, i < n → (rule3H numeric st dataRefs).1.getD i [] = st.getD i [] := by
  cases numeric with
  | nil => exact ⟨hn, fun _ _ => rfl⟩
  | cons m ms =>
    simp only [rule3H]
    split
    · split
      · obtain ⟨a1, a2, a3⟩ := allocBins_frame st
          (listMin ((dataRefs.map fun r => readF st r m).filterMap numPart))
          ((listMax ((dataRefs.map fun r => readF st r m).filterMap numPart) -
            listMin ((dataRefs.map fun r => readF st r m).filterMap numPart)) / 20)
        obtain ⟨f1, f2⟩ := histFoldH_frame _ _ _ n
          (fun r hr => le_trans hn (a3 r hr).2)
          ((dataRefs.map fun r => readF st r m).filterMap numPart) _ (le_trans hn a1)
        have hcomp : ∀ i, i < n →
            (histFoldH (allocBins st
                (listMin ((dataRefs.map fun r => readF st r m).filterMap numPart))
                ((listMax ((dataRefs.map fun r => readF st r m).filterMap numPart) -
                  listMin ((dataRefs.map fun r => readF st r m).filterMap numPart)) / 20)).2
              (listMin ((dataRefs.map fun r => readF st r m).filterMap numPart))
              ((listMax ((dataRefs.map fun r => readF st r m).filterMap numPart) -
                listMin ((dataRefs.map fun r => readF st r m).filterMap numPart)) / 20)
              (allocBins st
                (listMin ((dataRefs.map fun r => readF st r m).filterMap numPart))
                ((listMax ((dataRefs.map fun r => readF st r m).filterMap numPart) -
                  listMin ((dataRefs.map fun r => readF st r m).filterMap numPart)) / 20)).1
              ((dataRefs.map fun r => readF st r m).filterMap numPart)).1.getD i [] =
            st.getD i [] := by
          intro i hi
          exact (f2 i hi).trans (a2 i (by omega))
        split
        · exact ⟨f1, hcomp⟩
        · exact ⟨f1, hcomp⟩
      · exact ⟨hn, fun _ _ => rfl⟩
    · exact ⟨hn, fun _ _ => rfl⟩

theorem selectVisualizationsH_store (columns : List String) (cls : List (String × Role))
    (st : Store) (dataRefs : List Nat) :
    st.length ≤ (selectVisualizationsH columns cls st dataRefs).1.length ∧
    ∀ i, i < st.length →
      (selectVisualizationsH columns cls st dataRefs).1.getD i [] = st.getD i [] := by
  simp only [selectVisualizationsH]
  obtain ⟨h21, h22⟩ := rule2H_frame (colsWithRole columns cls .categorical)
    (colsWithRole columns cls .numeric) st dataRefs st.length (le_refl _)
  obtain ⟨h31, h32⟩ := rule3H_frame (colsWithRole columns cls .numeric)
    (rule2H (colsWithRole columns cls .categorical)
      (colsWithRole columns cls .numeric) st dataRefs).1 dataRefs st.length h21
  cases h3 : (rule3H (colsWithRole columns cls .numeric)
      (rule2H (colsWithRole columns cls .categorical)
        (colsWithRole columns cls .numeric) st dataRefs).1 dataRefs).2 with
  | none =>
    exact ⟨h31, fun i hi => (h32 i hi).trans (h22 i hi)⟩
  | some vis3 =>
    exact ⟨h31, fun i hi => (h32 i hi).trans (h22 i hi)⟩

/-- C10: in the store-passing embedding — which makes every object
write of the engine explicit (the rule-2 group records and the rule-3
histogram bins, all freshly allocated) — `selectVisualizationsH` leaves
every input row object unchanged: reading the batch references back
after the call (on either the normal or the throwing path) yields
exactly the rows that were there before, in the same order and with the
same key–value bindings; all writes land in cells allocated during the
call. -/
theorem selectVisualizationsH_preserves_input_rows (columns : List String)
    (cls : List (String × Role)) (st : Store) (dataRefs : List Nat)
    (h : ∀ r ∈ dataRefs, r < st.length) :
    dataRows (selectVisualizationsH columns cls st dataRefs).1 dataRefs =
      dataRows st dataRefs := by
  obtain ⟨_, hlow⟩ := selectVisualizationsH_store columns cls st dataRefs
  unfold dataRows
  apply List.map_congr_left
  intro r hr
  exact hlow r (h r hr)

/-- C10 — witness: a one-row batch with one categorical column reads
back unchanged. -/
theorem selectVisualizationsH_preserves_witness :
    dataRows (selectVisualizationsH ["c"] [("c", Role.categorical)]
        [[("c", Value.str "A")]] [0]).1 [0] =
      dataRows [[("c", Value.str "A")]] [0] :=
  selectVisualizationsH_preserves_input_rows ["c"] [("c", .categorical)]
    [[("c", .str "A")]] [0] (by decide)

end Dashboard
